import Mathlib

/-!
# x86_cpuload: duty-cycle timing engine

A shallow embedding of `x86_cpuload.c`.

* `int` values are mathematical integers; every `int` operation is reduced with
  `wrapInt` (two's complement, 32 bits, the behaviour of the x86 instructions the
  program is compiled to).
* `unsigned long` / `unsigned long long` values are naturals; every operation is
  reduced modulo `2 ^ 64`.
* the process-wide configuration variables are the fields of `Globals`.
* the array `cpu_info` is a list of `cpu_info` records, indexed by the cpu number.
* `rdtsc` reads a clock given as a sequence of tick counts.
* `float` and `double` values are the reals of binary32 and binary64; every operation
  is rounded to nearest, ties to even; `sinf` is the real sine rounded to `float`.
-/

set_option linter.unusedVariables false

namespace X86Cpuload

/-! ## Machine integers -/

/-- Two's complement reduction of an integer to the range of a 32-bit `int`. -/
def wrapInt (x : Int) : Int := (x + 2 ^ 31) % 2 ^ 32 - 2 ^ 31

/-- Conversion of an `int` to `unsigned long long` (reduction modulo `2 ^ 64`). -/
def toULL (x : Int) : Nat := (x % 2 ^ 64).toNat

/-- Reduction of a natural number to the range of `unsigned long long`. -/
def wrapULL (n : Nat) : Nat := n % 2 ^ 64

/-! ## Data model -/

/-- Percpu info structure (`struct cpu_info`). -/
structure cpu_info where
  sample_tsc : Nat
  timeout_tsc : Nat
  period_tsc : Nat
  thread : Nat
deriving DecidableEq

/-- The `int` configuration variables of the program, set once by `cmdline`. -/
structure Globals where
  sample_ms : Int
  time_out : Int
  busy_pct : Int
  load_mode : Int
  period_sec : Int
deriving DecidableEq

/-- Every configuration variable holds a value of the type `int`. -/
def Globals.inRange (g : Globals) : Prop :=
  (-2 ^ 31 ≤ g.sample_ms ∧ g.sample_ms < 2 ^ 31) ∧
    (-2 ^ 31 ≤ g.time_out ∧ g.time_out < 2 ^ 31) ∧
    (-2 ^ 31 ≤ g.busy_pct ∧ g.busy_pct < 2 ^ 31) ∧
    (-2 ^ 31 ≤ g.load_mode ∧ g.load_mode < 2 ^ 31) ∧
    (-2 ^ 31 ≤ g.period_sec ∧ g.period_sec < 2 ^ 31)

instance (g : Globals) : Decidable g.inRange := by
  unfold Globals.inRange
  infer_instance

def DEFAULT_SAMPLE_MS : Int := 10
def DEFAULT_TIMEOUT_SEC : Int := 10
def DEFAULT_CPU_BUSY : Int := 100
def DEFAULT_PERIOD_SEC : Int := 5
def CPU_LOAD_CONST : Int := 1
def CPU_LOAD_SIN : Int := 2
def DEFAULT_LOAD_MODE : Int := CPU_LOAD_CONST

/-- The configuration before `cmdline` has read any option. -/
def defaultGlobals : Globals :=
  ⟨DEFAULT_SAMPLE_MS, DEFAULT_TIMEOUT_SEC, DEFAULT_CPU_BUSY, DEFAULT_LOAD_MODE,
    DEFAULT_PERIOD_SEC⟩

/-! ## Cycle clock -/

/-- The time stamp counter: the `i`-th execution of `rdtsc` returns the `i`-th tick
count of the clock, as a 64-bit value. -/
def rdtsc (clk : Nat → Nat) (i : Nat) : Nat := wrapULL (clk i)

/-! ## Calibration -/

/-- `usec * cpu_info[cpu].sample_tsc / sample_ms / 1000` in `unsigned long long`.
The result is `none` when `cpu` is not an index of the table or when the divisor
`sample_ms`, converted to `unsigned long long`, is zero. -/
def us_to_tsc (g : Globals) (cpus : List cpu_info) (usec cpu : Nat) : Option Nat :=
  match cpus[cpu]? with
  | none => none
  | some ci =>
    if toULL g.sample_ms = 0 then none
    else some (wrapULL (usec * ci.sample_tsc) / toULL g.sample_ms / 1000)

/-- The calibration of one cpu. `t0` and `t1` are the clock readings before and after
`usleep(sample_ms * 1000)`. The C function returns 0; the embedding returns the
updated table. -/
def cpu_info_init (g : Globals) (cpus : List cpu_info) (t0 t1 cpu : Nat) :
    Option (List cpu_info) :=
  match cpus[cpu]? with
  | none => none
  | some ci =>
    let sample_tsc := wrapULL (t1 + 2 ^ 64 - t0)
    let cpus1 := cpus.set cpu ⟨sample_tsc, ci.timeout_tsc, ci.period_tsc, ci.thread⟩
    match us_to_tsc g cpus1 (toULL (wrapInt (g.time_out * 1000000))) cpu with
    | none => none
    | some timeout_tsc =>
      let cpus2 := cpus1.set cpu ⟨sample_tsc, timeout_tsc, ci.period_tsc, ci.thread⟩
      match us_to_tsc g cpus2 (toULL (wrapInt (g.period_sec * 1000000))) cpu with
      | none => none
      | some period_tsc =>
        some (cpus2.set cpu ⟨sample_tsc, timeout_tsc, period_tsc, ci.thread⟩)

/-! ## Load shapes -/

/-- The constant load shape: `sample_ms * 1000 - (sample_ms * 10 * busy_pct)`, computed
in `int` and converted to `unsigned long long`. -/
def get_idle_time_const (g : Globals) (elapse cpu : Nat) : Nat :=
  toULL (wrapInt (wrapInt (g.sample_ms * 1000)
    - wrapInt (wrapInt (g.sample_ms * 10) * g.busy_pct)))

/-- The constant `PI` of the program (`#define PI 3.14`). -/
def PI : ℚ := 3.14

/-! ### Binary floating point

`float` is binary32 (precision 24) and `double` is binary64 (precision 53), as on x86-64
with SSE arithmetic; every operation rounds to nearest, ties to even. The exponent
range is not bounded: in `get_idle_time_sin` no intermediate value overflows or is
subnormal (the arguments are 64-bit integers and `sample_ms * 1000` is an `int`). -/

/-- Rounding of a real number to the nearest integer, a tie going to the even one. -/
noncomputable def roundEven (q : ℝ) : ℤ :=
  if q - ⌊q⌋ < 1 / 2 then ⌊q⌋
  else if 1 / 2 < q - ⌊q⌋ then ⌊q⌋ + 1
  else if Even ⌊q⌋ then ⌊q⌋ else ⌊q⌋ + 1

/-- The unit in the last place of a positive real in the binary format of precision `p`. -/
noncomputable def ulp (p : ℕ) (x : ℝ) : ℝ := (2 : ℝ) ^ (Int.log 2 x + 1 - (p : ℤ))

/-- Rounding of a non-negative real to precision `p`, to nearest, ties to even. -/
noncomputable def roundMag (p : ℕ) (x : ℝ) : ℝ := (roundEven (x / ulp p x) : ℝ) * ulp p x

/-- Rounding of a real to the binary format of precision `p` (sign and magnitude). -/
noncomputable def roundBinary (p : ℕ) (x : ℝ) : ℝ :=
  if 0 ≤ x then roundMag p x else -roundMag p (-x)

/-- The reals of the binary format of precision `p`. -/
def IsRep (p : ℕ) (b : ℝ) : Prop := ∃ m e : ℤ, |m| < 2 ^ p ∧ b = (m : ℝ) * (2 : ℝ) ^ e

/-- The conversion of a real to `float`, and the rounding of a `float` operation. -/
noncomputable def to_float (x : ℝ) : ℝ := roundBinary 24 x

/-- The conversion of a real to `double`, and the rounding of a `double` operation. -/
noncomputable def to_double (x : ℝ) : ℝ := roundBinary 53 x

/-- The function `sinf`, taken as the real sine rounded to `float`. -/
noncomputable def sinf (x : ℝ) : ℝ := to_float (Real.sin x)

/-- Truncation of a real toward zero. -/
noncomputable def truncate (v : ℝ) : ℤ := if 0 ≤ v then ⌊v⌋ else ⌈v⌉

/-- The conversion of a `float` to `unsigned long long` as compiled for x86-64: below
`2 ^ 63` the signed conversion instruction (truncation, reinterpreted modulo `2 ^ 64`,
and `2 ^ 63` when the value is out of its range), from `2 ^ 63` on the same
instruction on `v - 2 ^ 63` with the top bit flipped. -/
noncomputable def float_to_ull (v : ℝ) : Nat :=
  if (2 : ℝ) ^ 63 ≤ v then (if v < (2 : ℝ) ^ 64 then ⌊v⌋₊ else 0)
  else if -(2 : ℝ) ^ 63 ≤ v then toULL (truncate v)
  else 2 ^ 63

/-- The argument `2.0 * PI * elapse / period_tsc` of `sinf` in `get_idle_time_sin`, a
`double`. -/
noncomputable def sin_arg (period_tsc elapse : Nat) : ℝ :=
  to_double (to_double (to_double (2.0 * to_double (PI : ℝ)) * to_double (elapse : ℝ))
    / to_double (period_tsc : ℝ))

/-- The value `pct = .5 * sinf(...) + .5` of `get_idle_time_sin`: the argument is
converted to `float`, the sum is computed in `double` and stored in a `float`. -/
noncomputable def sin_pct (period_tsc elapse : Nat) : ℝ :=
  to_float (to_double (to_double (0.5 * sinf (to_float (sin_arg period_tsc elapse))) + 0.5))

/-- The value of `sample_ms * 1000 - (sample_ms * 1000 * pct)` in `get_idle_time_sin`, a
`float`, before its conversion to `unsigned long long`: the `int` product is converted
to `float` for the multiplication and for the subtraction. -/
noncomputable def sin_idle_value (g : Globals) (period_tsc elapse : Nat) : ℝ :=
  to_float (to_float (wrapInt (g.sample_ms * 1000) : ℝ)
    - to_float (to_float (wrapInt (g.sample_ms * 1000) : ℝ) * sin_pct period_tsc elapse))

/-- The wave load shape `y = 0.5sin(ax) + 0.5`. With `period_tsc = 0` the division
gives an infinity or a NaN, `sinf` a NaN, and the conversion of a NaN gives `2 ^ 63`.
The result is `none` only when `cpu` is not an index of the table. -/
noncomputable def get_idle_time_sin (g : Globals) (cpus : List cpu_info)
    (elapse cpu : Nat) : Option Nat :=
  match cpus[cpu]? with
  | none => none
  | some ci =>
    let period_tsc := ci.period_tsc
    if period_tsc = 0 then some (2 ^ 63)
    else some (float_to_ull (sin_idle_value g period_tsc elapse))

/-! ## Duty-cycle loop -/

/-- One call of `get_idle_time` made by `sample_loop`: the argument `now - begin` and
the returned number of microseconds (`usleep` is called when it is not zero). -/
structure IdleCall where
  elapse : Nat
  sleep_us : Nat
deriving DecidableEq

/-- The local variables of `sample_loop`, with the number of clock readings made in
the loop and the calls of `get_idle_time` made so far. -/
structure LoopState where
  begin : Nat
  now : Nat
  end_ : Nat
  tmp : Nat
  reads : Nat
  calls : List IdleCall
deriving DecidableEq

/-- The state of `sample_loop` before the first test of `now < end`. -/
def sample_loop_init (clk : Nat → Nat) (sample_tsc timeout_tsc : Nat) : LoopState :=
  let now := rdtsc clk 0
  ⟨now, now, wrapULL (now + timeout_tsc), wrapULL (now + sample_tsc), 0, []⟩

/-- The body of the `while` loop of `sample_loop`. -/
def sample_loop_body (clk : Nat → Nat) (idle : Nat → Nat → Nat) (cpu sample_tsc : Nat)
    (s : LoopState) : LoopState :=
  let now := rdtsc clk (s.reads + 1)
  if s.tmp < now then
    let elapse := wrapULL (now + 2 ^ 64 - s.begin)
    let sleep_us := idle elapse cpu
    ⟨s.begin, now, s.end_, wrapULL (s.tmp + sample_tsc), s.reads + 1,
      s.calls ++ [⟨elapse, sleep_us⟩]⟩
  else
    ⟨s.begin, now, s.end_, s.tmp, s.reads + 1, s.calls⟩

/-- One test of the loop condition `now < end`, followed by the body when it holds. -/
def sample_loop_step (clk : Nat → Nat) (idle : Nat → Nat → Nat) (cpu sample_tsc : Nat)
    (s : LoopState) : LoopState :=
  if s.now < s.end_ then sample_loop_body clk idle cpu sample_tsc s else s

/-- The `while` loop of `sample_loop`, run for at most `fuel` iterations: the state at
the exit of the loop, or `none` when the loop has not exited yet. -/
def sample_loop_run (clk : Nat → Nat) (idle : Nat → Nat → Nat) (cpu sample_tsc : Nat) :
    Nat → LoopState → Option LoopState
  | 0, s => if s.now < s.end_ then none else some s
  | fuel + 1, s =>
    if s.now < s.end_ then
      sample_loop_run clk idle cpu sample_tsc fuel (sample_loop_body clk idle cpu sample_tsc s)
    else some s

/-- The function `sample_loop`; `idle` is the function `get_idle_time` points to. -/
def sample_loop (clk : Nat → Nat) (idle : Nat → Nat → Nat) (cpus : List cpu_info)
    (cpu fuel : Nat) : Option LoopState :=
  match cpus[cpu]? with
  | none => none
  | some ci =>
    sample_loop_run clk idle cpu ci.sample_tsc fuel
      (sample_loop_init clk ci.sample_tsc ci.timeout_tsc)

/-- The worker `cpu_workload`: calibration (clock readings 0 and 1), then the loop
(clock readings from 2 on). -/
def cpu_workload (g : Globals) (clk : Nat → Nat) (idle : Nat → Nat → Nat)
    (cpus : List cpu_info) (cpu fuel : Nat) : Option (List cpu_info × LoopState) :=
  match cpu_info_init g cpus (rdtsc clk 0) (rdtsc clk 1) cpu with
  | none => none
  | some cpus1 =>
    match sample_loop (fun i => clk (i + 2)) idle cpus1 cpu fuel with
    | none => none
    | some s => some (cpus1, s)

/-- The invariant of the loop of `sample_loop`. -/
structure LoopInv (clk : Nat → Nat) (sample_tsc timeout_tsc k : Nat) (s : LoopState) :
    Prop where
  reads_le : s.reads ≤ k
  begin_eq : s.begin = clk 0
  now_eq : s.now = clk s.reads
  end_eq : s.end_ = wrapULL (clk 0 + timeout_tsc)
  tmp_eq : s.tmp = clk 0 + (s.calls.length + 1) * sample_tsc
  last_call : s.calls.length = 0 ∨ clk 0 + s.calls.length * sample_tsc < s.now
  elapse_gt : ∀ (j : Nat) (hj : j < s.calls.length),
    (j + 1) * sample_tsc < (s.calls.get ⟨j, hj⟩).elapse
  count_lt : s.calls.length * sample_tsc < timeout_tsc + sample_tsc

/-! ## Orchestrator -/

/-- The function `get_idle_time` points to. -/
inductive IdleFn where
  | const
  | sin
deriving DecidableEq

/-- The end of the process by `exit`: what was printed, and the exit code. -/
structure Exit where
  output : List String
  code : Nat
deriving DecidableEq

/-- The text printed by `help`; its first word stands for the whole usage message. -/
def help : String := "Usage"

/-- The function `err_exit` prints `msg` (through `perror` when `reason` is not zero) and
ends the process with `exit(1)`; `printed` is what was printed before. -/
def err_exit (printed : List String) (msg : String) (reason : Int) : Exit :=
  ⟨printed ++ [msg], 1⟩

/-- The function `cpus_init`; `procstat_cpus` is the result of `get_online_cpus` and
`malloc_ok` tells whether the allocation of the table succeeds. The result is the new
value of `online_cpus` and of `get_idle_time`. -/
def cpus_init (g : Globals) (procstat_cpus : Nat) (malloc_ok : Bool) :
    Except Exit (Nat × IdleFn) :=
  if procstat_cpus = 0 then .error (err_exit [] "Get cpu online number failed." 0)
  else if !malloc_ok then .error (err_exit [] "Allocate cpu_info array failed." 1)
  else if g.load_mode = CPU_LOAD_CONST then .ok (procstat_cpus, IdleFn.const)
  else if g.load_mode = CPU_LOAD_SIN then .ok (procstat_cpus, IdleFn.sin)
  else .error (err_exit [help] "Work load mode not supported." 0)

/-- The function `verify_input`. -/
def verify_input (start_cpu thread_count online_cpus : Nat) : Bool :=
  decide (start_cpu < online_cpus) &&
    (decide (thread_count > 0) && decide (thread_count ≤ online_cpus)) &&
    decide (wrapULL (start_cpu + thread_count) ≤ online_cpus)

/-- The cpus on which `start_worker_threads` creates a thread: the values of `i` in
`for (i = start_cpu; i < end; ++i)` with `end = start_cpu + thread_count`. -/
def worker_cpus (start_cpu thread_count : Nat) : List Nat :=
  List.range' start_cpu (wrapULL (start_cpu + thread_count) - start_cpu)

/-- How `main` goes on after `cmdline`: the process exits, or `start_worker_threads`
is reached. -/
inductive Outcome where
  | exited (e : Exit)
  | workers (f : IdleFn) (cpus : List Nat)
deriving DecidableEq

/-- The function `main` after `cmdline` has set the configuration. -/
def main (g : Globals) (start_cpu thread_count procstat_cpus : Nat) (malloc_ok : Bool) :
    Outcome :=
  match cpus_init g procstat_cpus malloc_ok with
  | .error e => .exited e
  | .ok (online_cpus, f) =>
    if !verify_input start_cpu thread_count online_cpus then
      .exited (err_exit [] "Cpu range invalid" 0)
    else .workers f (worker_cpus start_cpu thread_count)

/-! ## Lemmas on machine integers -/

theorem wrapInt_of_range {x : Int} (h1 : -2 ^ 31 ≤ x) (h2 : x < 2 ^ 31) : wrapInt x = x := by
  unfold wrapInt
  omega

theorem toULL_of_nonneg {x : Int} (h1 : 0 ≤ x) (h2 : x < 2 ^ 64) : (toULL x : Int) = x := by
  unfold toULL
  omega

theorem toULL_of_neg {x : Int} (h1 : x < 0) (h2 : -2 ^ 64 ≤ x) :
    (toULL x : Int) = 2 ^ 64 + x := by
  unfold toULL
  omega

theorem wrapULL_of_lt {n : Nat} (h : n < 2 ^ 64) : wrapULL n = n := by
  unfold wrapULL
  omega

theorem wrapULL_lt (n : Nat) : wrapULL n < 2 ^ 64 := by
  unfold wrapULL
  omega

/-! ## The constant load shape -/

/-- C1: with `0 ≤ sample_ms`, `0 ≤ busy_pct ≤ 100` and `sample_ms * 1000` in the range of
`int`, `get_idle_time_const` returns exactly `sample_ms * 1000 - sample_ms * 10 * busy_pct`,
whatever `elapse` and `cpu` are. -/
theorem get_idle_time_const_spec (g : Globals) (elapse cpu : Nat)
    (hs : 0 ≤ g.sample_ms) (hb0 : 0 ≤ g.busy_pct) (hb1 : g.busy_pct ≤ 100)
    (hr : g.sample_ms * 1000 < 2 ^ 31) :
    (get_idle_time_const g elapse cpu : Int)
        = g.sample_ms * 1000 - g.sample_ms * 10 * g.busy_pct ∧
      ∀ elapse1 cpu1 : Nat,
        get_idle_time_const g elapse1 cpu1 = get_idle_time_const g elapse cpu := by
  refine ⟨?_, fun _ _ => rfl⟩
  have hp0 : 0 ≤ g.sample_ms * 10 * g.busy_pct := by positivity
  have hp1 : g.sample_ms * 10 * g.busy_pct ≤ g.sample_ms * 1000 := by nlinarith
  unfold get_idle_time_const
  rw [wrapInt_of_range (x := g.sample_ms * 1000) (by omega) hr,
    wrapInt_of_range (x := g.sample_ms * 10) (by omega) (by omega),
    wrapInt_of_range (x := g.sample_ms * 10 * g.busy_pct) (by omega) (by omega),
    wrapInt_of_range (by omega) (by omega)]
  exact toULL_of_nonneg (by omega) (by omega)

/-- C1, at `sample_ms = 10` and `busy_pct = 40`: the idle time is 6000 microseconds. -/
theorem get_idle_time_const_spec_witness :
    (get_idle_time_const ⟨10, 10, 40, 1, 5⟩ 7 3 : Int) = 10 * 1000 - 10 * 10 * 40 ∧
      (10 : Int) * 1000 - 10 * 10 * 40 = 6000 ∧
      ∀ elapse1 cpu1 : Nat, get_idle_time_const ⟨10, 10, 40, 1, 5⟩ elapse1 cpu1
        = get_idle_time_const ⟨10, 10, 40, 1, 5⟩ 7 3 :=
  ⟨(get_idle_time_const_spec ⟨10, 10, 40, 1, 5⟩ 7 3 (by decide) (by decide) (by decide)
      (by decide)).1, by decide,
    (get_idle_time_const_spec ⟨10, 10, 40, 1, 5⟩ 7 3 (by decide) (by decide) (by decide)
      (by decide)).2⟩

/-- C9: with `0 < sample_ms` and the three products in the range of `int`, the value
returned by `get_idle_time_const` is at most `sample_ms * 1000` exactly when
`0 ≤ busy_pct ≤ 100`; above 100 the `int` difference is negative and the value is
`2 ^ 64 - (sample_ms * 10 * busy_pct - sample_ms * 1000)`; below 0 the value is larger
than `sample_ms * 1000`. -/
theorem get_idle_time_const_unclamped (g : Globals) (elapse cpu : Nat)
    (hs : 0 < g.sample_ms)
    (h1 : g.sample_ms * 1000 < 2 ^ 31)
    (h2 : -2 ^ 31 ≤ g.sample_ms * 10 * g.busy_pct)
    (h3 : g.sample_ms * 10 * g.busy_pct < 2 ^ 31) :
    (((0 : Int) ≤ get_idle_time_const g elapse cpu ∧
        (get_idle_time_const g elapse cpu : Int) ≤ g.sample_ms * 1000)
        ↔ (0 ≤ g.busy_pct ∧ g.busy_pct ≤ 100)) ∧
      (100 < g.busy_pct →
        wrapInt (wrapInt (g.sample_ms * 1000)
          - wrapInt (wrapInt (g.sample_ms * 10) * g.busy_pct)) < 0 ∧
        (get_idle_time_const g elapse cpu : Int)
          = 2 ^ 64 - (g.sample_ms * 10 * g.busy_pct - g.sample_ms * 1000)) ∧
      (g.busy_pct < 0 →
        g.sample_ms * 1000 < (get_idle_time_const g elapse cpu : Int)) := by
  have e1 : wrapInt (g.sample_ms * 1000) = g.sample_ms * 1000 :=
    wrapInt_of_range (by omega) h1
  have e2 : wrapInt (g.sample_ms * 10) = g.sample_ms * 10 :=
    wrapInt_of_range (by omega) (by omega)
  have e3 : wrapInt (g.sample_ms * 10 * g.busy_pct) = g.sample_ms * 10 * g.busy_pct :=
    wrapInt_of_range h2 h3
  have hhi : 100 < g.busy_pct → g.sample_ms * 1000 < g.sample_ms * 10 * g.busy_pct := by
    intro h; nlinarith
  have hlo : g.busy_pct < 0 → g.sample_ms * 10 * g.busy_pct < 0 := by
    intro h; nlinarith
  have hmid : 0 ≤ g.busy_pct → g.busy_pct ≤ 100 →
      0 ≤ g.sample_ms * 10 * g.busy_pct ∧
        g.sample_ms * 10 * g.busy_pct ≤ g.sample_ms * 1000 := by
    intro ha hb
    constructor
    · positivity
    · nlinarith
  unfold get_idle_time_const
  rw [e1, e2, e3]
  have hw : 0 < g.sample_ms * 1000 := by omega
  clear e1 e2 e3
  generalize g.sample_ms * 10 * g.busy_pct = p at *
  generalize g.sample_ms * 1000 = w at *
  unfold wrapInt toULL
  refine ⟨⟨fun h => ?_, fun h => ?_⟩, fun h => ?_, fun h => ?_⟩
  · by_contra hc
    rcases lt_or_le g.busy_pct 0 with hb | hb
    · have := hlo hb
      omega
    · have := hhi (by omega)
      omega
  · have := hmid h.1 h.2
    omega
  · have := hhi h
    omega
  · have := hlo h
    omega

/-- C9, at `sample_ms = 10` and `busy_pct = 150`: the value is `2 ^ 64 - 5000`. -/
theorem get_idle_time_const_unclamped_witness :
    (get_idle_time_const ⟨10, 10, 150, 1, 5⟩ 0 0 : Int) = 2 ^ 64 - (10 * 10 * 150 - 10 * 1000) :=
  ((get_idle_time_const_unclamped ⟨10, 10, 150, 1, 5⟩ 0 0 (by decide) (by decide)
    (by decide) (by decide)).2.1 (by decide)).2

/-! ## Orchestrator validation and load-shape selection -/

theorem cpus_init_online (g : Globals) (procstat_cpus : Nat) (malloc_ok : Bool)
    (n : Nat) (f : IdleFn) (h : cpus_init g procstat_cpus malloc_ok = .ok (n, f)) :
    n = procstat_cpus := by
  unfold cpus_init at h
  split_ifs at h <;> simp_all

theorem main_exits_of_verify_false (g : Globals) (start_cpu thread_count procstat_cpus : Nat)
    (malloc_ok : Bool) (h : verify_input start_cpu thread_count procstat_cpus = false) :
    ∃ e, main g start_cpu thread_count procstat_cpus malloc_ok = .exited e ∧ e.code = 1 := by
  unfold main
  cases hc : cpus_init g procstat_cpus malloc_ok with
  | error e =>
    refine ⟨e, rfl, ?_⟩
    unfold cpus_init at hc
    split_ifs at hc <;> simp_all [err_exit] <;> subst hc <;> rfl
  | ok r =>
    obtain ⟨n, f⟩ := r
    have hn := cpus_init_online g procstat_cpus malloc_ok n f hc
    subst hn
    simp [h, err_exit]

/-- C2: `online_cpus` is the number of `cpuN` lines of `/proc/stat`, for which a table
of records has been allocated, so it is at most `2 ^ 63`. Then, for all 64-bit values of
`start_cpu` and `thread_count`, `verify_input` returns false whenever some target core
`start_cpu + k`, `k < thread_count`, is not below `online_cpus` (the sum taken exactly
or modulo `2 ^ 64`), and `main` then exits with code 1 without reaching
`start_worker_threads`; it returns true when `thread_count ≥ 1` and every target core
is below `online_cpus`, and the threads are then created on exactly these cores. -/
theorem verify_input_spec (g : Globals) (start_cpu thread_count online_cpus : Nat)
    (malloc_ok : Bool) (honline : online_cpus ≤ 2 ^ 63)
    (hstart : start_cpu < 2 ^ 64) (hcount : thread_count < 2 ^ 64) :
    ((∃ k, k < thread_count ∧
          (¬ (start_cpu + k < online_cpus) ∨ ¬ (wrapULL (start_cpu + k) < online_cpus))) →
        verify_input start_cpu thread_count online_cpus = false ∧
        ∃ e, main g start_cpu thread_count online_cpus malloc_ok = .exited e ∧ e.code = 1) ∧
      ((1 ≤ thread_count ∧
          ((∀ k, k < thread_count → start_cpu + k < online_cpus) ∨
            (∀ k, k < thread_count → wrapULL (start_cpu + k) < online_cpus))) →
        verify_input start_cpu thread_count online_cpus = true ∧
        worker_cpus start_cpu thread_count = List.range' start_cpu thread_count) := by
  constructor
  · rintro ⟨k, hk, hout⟩
    have hv : verify_input start_cpu thread_count online_cpus = false := by
      by_contra hne
      have htrue : verify_input start_cpu thread_count online_cpus = true := by
        simpa using hne
      unfold verify_input at htrue
      simp only [Bool.and_eq_true, decide_eq_true_eq] at htrue
      obtain ⟨⟨h1, h2, h3⟩, h4⟩ := htrue
      have hw : wrapULL (start_cpu + thread_count) = start_cpu + thread_count :=
        wrapULL_of_lt (by omega)
      rw [hw] at h4
      have hwk : wrapULL (start_cpu + k) = start_cpu + k := wrapULL_of_lt (by omega)
      rw [hwk] at hout
      omega
    exact ⟨hv, main_exits_of_verify_false g _ _ _ _ hv⟩
  · rintro ⟨hc, hall⟩
    have hexact : ∀ k, k < thread_count → start_cpu + k < online_cpus := by
      rcases hall with h | h
      · exact h
      · have h0 := h 0 (by omega)
        rw [Nat.add_zero, wrapULL_of_lt hstart] at h0
        have hsum : start_cpu + thread_count ≤ online_cpus := by
          by_contra hgt
          have hbad := h (online_cpus - start_cpu) (by omega)
          have he : start_cpu + (online_cpus - start_cpu) = online_cpus := by omega
          rw [he, wrapULL_of_lt (by omega)] at hbad
          exact lt_irrefl _ hbad
        intro k hk
        omega
    have h0 := hexact 0 (by omega)
    have h1 := hexact (thread_count - 1) (by omega)
    have hw : wrapULL (start_cpu + thread_count) = start_cpu + thread_count :=
      wrapULL_of_lt (by omega)
    constructor
    · unfold verify_input
      rw [hw]
      simp only [Bool.and_eq_true, decide_eq_true_eq]
      omega
    · unfold worker_cpus
      rw [hw]
      congr 1
      omega

/-- C2, at `online_cpus = 4`, `start_cpu = 3`, `thread_count = 2`: rejected. -/
theorem verify_input_spec_witness :
    verify_input 3 2 4 = false ∧
      ∃ e, main defaultGlobals 3 2 4 true = .exited e ∧ e.code = 1 :=
  (verify_input_spec defaultGlobals 3 2 4 true (by decide) (by decide) (by decide)).1
    ⟨1, by decide, Or.inl (by decide)⟩

/-- C7: with a non-zero number of online cpus and a successful allocation, `cpus_init`
selects `get_idle_time_const` exactly when `load_mode = 1` and `get_idle_time_sin`
exactly when `load_mode = 2`; for every other `load_mode` the process prints the help
and the error message and ends with code 1, and `main` reaches neither `verify_input`
nor `start_worker_threads`. -/
theorem cpus_init_selects (g : Globals) (procstat_cpus : Nat) (hn : procstat_cpus ≠ 0) :
    (cpus_init g procstat_cpus true = .ok (procstat_cpus, IdleFn.const) ↔ g.load_mode = 1) ∧
      (cpus_init g procstat_cpus true = .ok (procstat_cpus, IdleFn.sin) ↔ g.load_mode = 2) ∧
      (g.load_mode ≠ 1 → g.load_mode ≠ 2 →
        cpus_init g procstat_cpus true
            = .error ⟨[help, "Work load mode not supported."], 1⟩ ∧
          ∀ start_cpu thread_count : Nat,
            main g start_cpu thread_count procstat_cpus true
              = .exited ⟨[help, "Work load mode not supported."], 1⟩) := by
  have key : g.load_mode ≠ 1 → g.load_mode ≠ 2 →
      cpus_init g procstat_cpus true
        = .error ⟨[help, "Work load mode not supported."], 1⟩ := by
    intro h1 h2
    simp [cpus_init, hn, CPU_LOAD_CONST, CPU_LOAD_SIN, h1, h2, err_exit]
  refine ⟨?_, ?_, fun h1 h2 => ⟨key h1 h2, fun a b => ?_⟩⟩
  · by_cases h1 : g.load_mode = 1
    · simp [cpus_init, hn, CPU_LOAD_CONST, h1]
    · by_cases h2 : g.load_mode = 2
      · simp [cpus_init, hn, CPU_LOAD_CONST, CPU_LOAD_SIN, h2]
      · simp [key h1 h2, h1]
  · by_cases h1 : g.load_mode = 1
    · simp [cpus_init, hn, CPU_LOAD_CONST, h1]
    · by_cases h2 : g.load_mode = 2
      · simp [cpus_init, hn, CPU_LOAD_CONST, CPU_LOAD_SIN, h2]
      · simp [key h1 h2, h2]
  · unfold main
    rw [key h1 h2]

/-- C7, with 4 online cpus: mode 2 selects the wave load, mode 3 ends the process. -/
theorem cpus_init_selects_witness :
    (cpus_init ⟨10, 10, 100, 2, 5⟩ 4 true = .ok (4, IdleFn.sin) ↔ (2 : Int) = 2) ∧
      cpus_init ⟨10, 10, 100, 3, 5⟩ 4 true
        = .error ⟨[help, "Work load mode not supported."], 1⟩ :=
  ⟨(cpus_init_selects ⟨10, 10, 100, 2, 5⟩ 4 (by decide)).2.1,
    ((cpus_init_selects ⟨10, 10, 100, 3, 5⟩ 4 (by decide)).2.2 (by decide) (by decide)).1⟩

/-! ## Calibration -/

theorem us_to_tsc_eq (g : Globals) (cpus : List cpu_info) (usec cpu : Nat) (ci : cpu_info)
    (hci : cpus[cpu]? = some ci) (hd : toULL g.sample_ms ≠ 0) :
    us_to_tsc g cpus usec cpu
      = some (wrapULL (usec * ci.sample_tsc) / toULL g.sample_ms / 1000) := by
  simp [us_to_tsc, hci, hd]

theorem cpu_info_init_eq (g : Globals) (cpus : List cpu_info) (t0 t1 cpu : Nat)
    (ci : cpu_info) (hci : cpus[cpu]? = some ci) (hd : toULL g.sample_ms ≠ 0) :
    cpu_info_init g cpus t0 t1 cpu
      = some (cpus.set cpu
          ⟨wrapULL (t1 + 2 ^ 64 - t0),
            wrapULL (toULL (wrapInt (g.time_out * 1000000)) * wrapULL (t1 + 2 ^ 64 - t0))
              / toULL g.sample_ms / 1000,
            wrapULL (toULL (wrapInt (g.period_sec * 1000000)) * wrapULL (t1 + 2 ^ 64 - t0))
              / toULL g.sample_ms / 1000,
            ci.thread⟩) := by
  have hlen : cpu < cpus.length := by
    rcases List.getElem?_eq_some.1 hci with ⟨h, _⟩
    exact h
  unfold cpu_info_init
  rw [hci]
  simp only
  rw [us_to_tsc_eq g _ _ cpu _ (List.getElem?_set_self hlen) hd]
  simp only
  rw [us_to_tsc_eq g _ _ cpu _ (List.getElem?_set_self (by simpa using hlen)) hd]
  simp only [List.set_set]

theorem toULL_of_pos_int {x : Int} (h1 : 0 ≤ x) (h2 : x < 2 ^ 31) : toULL x = x.toNat := by
  unfold toULL
  omega

theorem calibration_arith (T sm : Int) (st : Nat) (hs : 0 < sm) (hs2 : sm < 2 ^ 31)
    (hT : 0 ≤ T) (hT2 : T * 1000000 < 2 ^ 31) (hdvd : sm ∣ T * 1000)
    (hov : T.toNat * 1000000 * st < 2 ^ 64) :
    wrapULL (toULL (wrapInt (T * 1000000)) * st) / toULL sm / 1000
      = (T * 1000 / sm).toNat * st := by
  have e1 : wrapInt (T * 1000000) = T * 1000000 := wrapInt_of_range (by omega) hT2
  have e2 : toULL (T * 1000000) = T.toNat * 1000000 := by
    unfold toULL
    omega
  have e3 : toULL sm = sm.toNat := toULL_of_pos_int hs.le hs2
  rw [e1, e2, e3, wrapULL_of_lt hov, Nat.div_div_eq_div_mul]
  obtain ⟨q, hq⟩ := hdvd
  have hq0 : 0 ≤ q := by
    by_contra hneg
    push_neg at hneg
    have : sm * q < 0 := mul_neg_of_pos_of_neg hs hneg
    omega
  have hdiv : T * 1000 / sm = q := by
    rw [hq]
    exact Int.mul_ediv_cancel_left _ (ne_of_gt hs)
  rw [hdiv]
  have hnat : T.toNat * 1000 = sm.toNat * q.toNat := by
    apply Int.ofNat_inj.1
    push_cast
    rw [Int.toNat_of_nonneg hT, Int.toNat_of_nonneg hs.le, Int.toNat_of_nonneg hq0]
    exact hq
  have hm : 0 < sm.toNat * 1000 := by omega
  have hfac : T.toNat * 1000000 * st = q.toNat * st * (sm.toNat * 1000) := by
    calc T.toNat * 1000000 * st = (T.toNat * 1000) * (1000 * st) := by ring
      _ = (sm.toNat * q.toNat) * (1000 * st) := by rw [hnat]
      _ = q.toNat * st * (sm.toNat * 1000) := by ring
  rw [hfac, Nat.mul_div_cancel _ hm]

/-- C6 (as stated, refuted): with `sample_ms = 10`, `time_out = -1` and a calibration of
one tick (`sample_tsc = 1`), every condition of the claim holds (`sample_ms` divides
`time_out * 1000`, `time_out * 1000000` fits in `int`, the 64-bit product does not
overflow), but `timeout_tsc` is 1844674407370855, which is neither
`(time_out * 1000 / sample_ms) * sample_tsc = -100` nor its 64-bit conversion. -/
theorem cpu_info_init_negative_timeout :
    cpu_info_init ⟨10, -1, 100, 1, 5⟩ [⟨0, 0, 0, 0⟩] 0 1 0
        = some [⟨1, 1844674407370855, 500, 0⟩] ∧
      ((10 : Int) ∣ -1 * 1000 ∧ (10 : Int) ∣ 5 * 1000) ∧
      (-2 ^ 31 ≤ (-1 : Int) * 1000000 ∧ (-1 : Int) * 1000000 < 2 ^ 31) ∧
      toULL (wrapInt (-1 * 1000000)) * 1 < 2 ^ 64 ∧
      ((1844674407370855 : Nat) : Int) ≠ (-1 * 1000 / 10) * 1 ∧
      (1844674407370855 : Nat) ≠ toULL ((-1 * 1000 / 10) * 1) := by
  refine ⟨by decide, ⟨by decide, by decide⟩, ⟨by decide, by decide⟩, by decide, by decide,
    by decide⟩

/-- C6 (amended): with `0 < sample_ms` and no 64-bit overflow of `usec * sample_tsc`,
`us_to_tsc usec cpu` is `usec * sample_tsc / (sample_ms * 1000)`, and `n` whole sample
windows give exactly `n * sample_tsc` ticks; after `cpu_info_init`, when moreover
`time_out` and `period_sec` are not negative, `time_out * 1000000` and
`period_sec * 1000000` fit in `int` and `sample_ms` divides `time_out * 1000` and
`period_sec * 1000`, the record holds
`timeout_tsc = (time_out * 1000 / sample_ms) * sample_tsc` and
`period_tsc = (period_sec * 1000 / sample_ms) * sample_tsc`. -/
theorem calibration_self_consistent (g : Globals) (cpus : List cpu_info) (t0 t1 cpu : Nat)
    (ci : cpu_info) (hr : g.inRange) (hci : cpus[cpu]? = some ci) (hs : 0 < g.sample_ms) :
    (∀ usec : Nat, usec * ci.sample_tsc < 2 ^ 64 →
        us_to_tsc g cpus usec cpu
          = some (usec * ci.sample_tsc / (g.sample_ms.toNat * 1000))) ∧
      (∀ n : Nat, n * g.sample_ms.toNat * 1000 * ci.sample_tsc < 2 ^ 64 →
        us_to_tsc g cpus (n * g.sample_ms.toNat * 1000) cpu = some (n * ci.sample_tsc)) ∧
      (0 ≤ g.time_out → 0 ≤ g.period_sec →
        g.time_out * 1000000 < 2 ^ 31 → g.period_sec * 1000000 < 2 ^ 31 →
        g.sample_ms ∣ g.time_out * 1000 → g.sample_ms ∣ g.period_sec * 1000 →
        g.time_out.toNat * 1000000 * wrapULL (t1 + 2 ^ 64 - t0) < 2 ^ 64 →
        g.period_sec.toNat * 1000000 * wrapULL (t1 + 2 ^ 64 - t0) < 2 ^ 64 →
        cpu_info_init g cpus t0 t1 cpu
          = some (cpus.set cpu
              ⟨wrapULL (t1 + 2 ^ 64 - t0),
                (g.time_out * 1000 / g.sample_ms).toNat * wrapULL (t1 + 2 ^ 64 - t0),
                (g.period_sec * 1000 / g.sample_ms).toNat * wrapULL (t1 + 2 ^ 64 - t0),
                ci.thread⟩)) := by
  have hs2 : g.sample_ms < 2 ^ 31 := hr.1.2
  have e3 : toULL g.sample_ms = g.sample_ms.toNat := toULL_of_pos_int hs.le hs2
  have hd : toULL g.sample_ms ≠ 0 := by
    rw [e3]
    omega
  have part1 : ∀ usec : Nat, usec * ci.sample_tsc < 2 ^ 64 →
      us_to_tsc g cpus usec cpu
        = some (usec * ci.sample_tsc / (g.sample_ms.toNat * 1000)) := by
    intro usec hov
    rw [us_to_tsc_eq g cpus usec cpu ci hci hd, wrapULL_of_lt hov, e3,
      Nat.div_div_eq_div_mul]
  refine ⟨part1, ?_, ?_⟩
  · intro n hov
    have hm : 0 < g.sample_ms.toNat * 1000 := by omega
    rw [part1 _ hov]
    have hfac : n * g.sample_ms.toNat * 1000 * ci.sample_tsc
        = n * ci.sample_tsc * (g.sample_ms.toNat * 1000) := by ring
    rw [hfac, Nat.mul_div_cancel _ hm]
  · intro hT hP hT2 hP2 hdT hdP hovT hovP
    rw [cpu_info_init_eq g cpus t0 t1 cpu ci hci hd,
      calibration_arith g.time_out g.sample_ms _ hs hs2 hT hT2 hdT hovT,
      calibration_arith g.period_sec g.sample_ms _ hs hs2 hP hP2 hdP hovP]

/-- C6 (amended), with the default configuration and 30000000 ticks per sample window:
the timeout is 1000 windows and the period 500 windows. -/
theorem calibration_self_consistent_witness :
    cpu_info_init defaultGlobals [⟨0, 0, 0, 0⟩] 0 30000000 0
      = some [⟨30000000, 1000 * 30000000, 500 * 30000000, 0⟩] :=
  (calibration_self_consistent defaultGlobals [⟨0, 0, 0, 0⟩] 0 30000000 0 ⟨0, 0, 0, 0⟩
    (by decide) rfl (by decide)).2.2 (by decide) (by decide) (by decide) (by decide)
    (by decide) (by decide) (by decide) (by decide)

theorem sample_loop_run_exit (clk : Nat → Nat) (idle : Nat → Nat → Nat)
    (cpu sample_tsc fuel : Nat) (s : LoopState) (h : ¬ s.now < s.end_) :
    sample_loop_run clk idle cpu sample_tsc fuel s = some s := by
  cases fuel <;> simp [sample_loop_run, h]

theorem wrapULL_idem (n : Nat) : wrapULL (wrapULL n) = wrapULL n := by
  unfold wrapULL
  omega

theorem degenerate_arith (g : Globals) (usec st : Nat) (hr : g.inRange)
    (hdeg : g.sample_ms < 0 ∨ (g.sample_ms ≠ 0 ∧ st = 0)) :
    toULL g.sample_ms ≠ 0 ∧ wrapULL (usec * st) / toULL g.sample_ms / 1000 = 0 := by
  have h1 := hr.1.1
  have h2 := hr.1.2
  have hlt := wrapULL_lt (usec * st)
  rcases hdeg with hneg | ⟨hne, hst⟩
  · have hd : toULL g.sample_ms ≥ 2 ^ 64 - 2 ^ 31 := by
      unfold toULL
      omega
    refine ⟨by omega, ?_⟩
    rw [Nat.div_div_eq_div_mul]
    exact Nat.div_eq_of_lt (by omega)
  · have hd : toULL g.sample_ms ≠ 0 := by
      unfold toULL
      omega
    refine ⟨hd, ?_⟩
    subst hst
    simp [wrapULL]

/-- C8 (as stated, refuted): with `sample_ms = 0` the divisor of `us_to_tsc` is zero, so
neither `us_to_tsc` nor `cpu_info_init` nor the worker yields a value. -/
theorem cpu_info_init_zero_sample :
    us_to_tsc ⟨0, 10, 100, 1, 5⟩ [⟨30000000, 0, 0, 0⟩] 10000000 0 = none ∧
      cpu_info_init ⟨0, 10, 100, 1, 5⟩ [⟨0, 0, 0, 0⟩] 0 30000000 0 = none ∧
      cpu_workload ⟨0, 10, 100, 1, 5⟩ (fun i => 30000000 * i)
        (get_idle_time_const ⟨0, 10, 100, 1, 5⟩) [⟨0, 0, 0, 0⟩] 0 1000 = none := by
  refine ⟨by decide, by decide, by decide⟩

/-- C8 (amended): when `sample_ms` is negative, or when `sample_ms` is not zero and the
clock does not advance during the calibration sleep, `cpu_info_init` completes with
`timeout_tsc = 0` and `period_tsc = 0`, and `sample_loop` then exits without any
iteration and without any call of `get_idle_time`. -/
theorem degenerate_calibration (g : Globals) (clk : Nat → Nat) (idle : Nat → Nat → Nat)
    (cpus : List cpu_info) (cpu fuel : Nat) (ci : cpu_info)
    (hr : g.inRange) (hci : cpus[cpu]? = some ci)
    (hdeg : g.sample_ms < 0 ∨ (g.sample_ms ≠ 0 ∧ rdtsc clk 1 = rdtsc clk 0)) :
    ∃ cpus1 ci1 s,
      cpu_info_init g cpus (rdtsc clk 0) (rdtsc clk 1) cpu = some cpus1 ∧
      cpus1[cpu]? = some ci1 ∧ ci1.timeout_tsc = 0 ∧ ci1.period_tsc = 0 ∧
      cpu_workload g clk idle cpus cpu fuel = some (cpus1, s) ∧
      s.reads = 0 ∧ s.calls = [] := by
  have hlen : cpu < cpus.length := by
    rcases List.getElem?_eq_some.1 hci with ⟨h, _⟩
    exact h
  have hdeg1 : g.sample_ms < 0 ∨
      (g.sample_ms ≠ 0 ∧ wrapULL (rdtsc clk 1 + 2 ^ 64 - rdtsc clk 0) = 0) := by
    rcases hdeg with h | ⟨h, he⟩
    · exact Or.inl h
    · refine Or.inr ⟨h, ?_⟩
      rw [he]
      have := wrapULL_lt (clk 0)
      unfold rdtsc wrapULL at *
      omega
  obtain ⟨hd, hT⟩ := degenerate_arith g (toULL (wrapInt (g.time_out * 1000000))) _ hr hdeg1
  obtain ⟨_, hP⟩ := degenerate_arith g (toULL (wrapInt (g.period_sec * 1000000))) _ hr hdeg1
  have hinit := cpu_info_init_eq g cpus (rdtsc clk 0) (rdtsc clk 1) cpu ci hci hd
  rw [hT, hP] at hinit
  have hget : (cpus.set cpu
      ⟨wrapULL (rdtsc clk 1 + 2 ^ 64 - rdtsc clk 0), 0, 0, ci.thread⟩)[cpu]?
        = some ⟨wrapULL (rdtsc clk 1 + 2 ^ 64 - rdtsc clk 0), 0, 0, ci.thread⟩ :=
    List.getElem?_set_self hlen
  refine ⟨_, _, sample_loop_init (fun i => clk (i + 2))
    (wrapULL (rdtsc clk 1 + 2 ^ 64 - rdtsc clk 0)) 0, hinit, hget, rfl, rfl, ?_, rfl, rfl⟩
  unfold cpu_workload
  rw [hinit]
  simp only
  unfold sample_loop
  rw [hget]
  simp only
  rw [sample_loop_run_exit]
  simp [sample_loop_init, rdtsc, wrapULL_idem]

/-- C8 (amended), at `sample_ms = -5` with a clock of 3000 ticks per reading. -/
theorem degenerate_calibration_witness :
    ∃ cpus1 ci1 s,
      cpu_info_init ⟨-5, 10, 100, 1, 5⟩ [⟨0, 0, 0, 0⟩]
        (rdtsc (fun i => 3000 * i) 0) (rdtsc (fun i => 3000 * i) 1) 0 = some cpus1 ∧
      cpus1[0]? = some ci1 ∧ ci1.timeout_tsc = 0 ∧ ci1.period_tsc = 0 ∧
      cpu_workload ⟨-5, 10, 100, 1, 5⟩ (fun i => 3000 * i)
        (get_idle_time_const ⟨-5, 10, 100, 1, 5⟩) [⟨0, 0, 0, 0⟩] 0 10 = some (cpus1, s) ∧
      s.reads = 0 ∧ s.calls = [] :=
  degenerate_calibration ⟨-5, 10, 100, 1, 5⟩ (fun i => 3000 * i)
    (get_idle_time_const ⟨-5, 10, 100, 1, 5⟩) [⟨0, 0, 0, 0⟩] 0 10 ⟨0, 0, 0, 0⟩
    (by decide) rfl (Or.inl (by decide))

/-! ## The duty-cycle loop -/

theorem sample_loop_body_reads (clk : Nat → Nat) (idle : Nat → Nat → Nat)
    (cpu sample_tsc : Nat) (s : LoopState) :
    (sample_loop_body clk idle cpu sample_tsc s).reads = s.reads + 1 := by
  unfold sample_loop_body
  simp only
  split_ifs <;> rfl

theorem sample_loop_body_now (clk : Nat → Nat) (idle : Nat → Nat → Nat)
    (cpu sample_tsc : Nat) (s : LoopState) :
    (sample_loop_body clk idle cpu sample_tsc s).now = rdtsc clk (s.reads + 1) := by
  unfold sample_loop_body
  simp only
  split_ifs <;> rfl

theorem sample_loop_body_end (clk : Nat → Nat) (idle : Nat → Nat → Nat)
    (cpu sample_tsc : Nat) (s : LoopState) :
    (sample_loop_body clk idle cpu sample_tsc s).end_ = s.end_ := by
  unfold sample_loop_body
  simp only
  split_ifs <;> rfl

theorem sample_loop_body_begin (clk : Nat → Nat) (idle : Nat → Nat → Nat)
    (cpu sample_tsc : Nat) (s : LoopState) :
    (sample_loop_body clk idle cpu sample_tsc s).begin = s.begin := by
  unfold sample_loop_body
  simp only
  split_ifs <;> rfl

theorem rdtsc_of_lt {clk : Nat → Nat} {i : Nat} (h : clk i < 2 ^ 64) : rdtsc clk i = clk i :=
  wrapULL_of_lt h

theorem clock_ge (clk : Nat → Nat) (hmono : StrictMono clk) (i : Nat) : clk 0 + i ≤ clk i := by
  induction i with
  | zero => simp
  | succ i ih =>
    have hlt : clk i < clk (i + 1) := hmono (Nat.lt_succ_self i)
    omega

/-- The loop, started in a state that has made `k` readings, exits after the reading
number `n`, the first one that is not below `E = end`. -/
theorem sample_loop_run_reaches (clk : Nat → Nat) (hmono : StrictMono clk)
    (idle : Nat → Nat → Nat) (cpu sample_tsc E n : Nat)
    (hn : E ≤ clk n) (hfirst : ∀ i, i < n → clk i < E) (hwrap : clk n < 2 ^ 64) :
    ∀ (fuel : Nat) (s : LoopState), s.reads ≤ n → s.now = clk s.reads → s.end_ = E →
      n - s.reads ≤ fuel →
      ∃ r, sample_loop_run clk idle cpu sample_tsc fuel s = some r ∧
        r.reads = n ∧ r.now = clk n := by
  intro fuel
  induction fuel with
  | zero =>
    intro s hle hnow hend hfuel
    have hk : s.reads = n := by omega
    refine ⟨s, ?_, hk, by rw [hnow, hk]⟩
    apply sample_loop_run_exit
    rw [hnow, hend, hk]
    omega
  | succ fuel ih =>
    intro s hle hnow hend hfuel
    rcases Nat.lt_or_ge s.reads n with hlt | hge
    · have hcond : s.now < s.end_ := by
        rw [hnow, hend]
        exact hfirst _ hlt
      have hnext : clk (s.reads + 1) < 2 ^ 64 :=
        lt_of_le_of_lt (hmono.monotone (by omega)) hwrap
      have := ih (sample_loop_body clk idle cpu sample_tsc s)
        (by rw [sample_loop_body_reads]; omega)
        (by rw [sample_loop_body_now, sample_loop_body_reads, rdtsc_of_lt hnext])
        (by rw [sample_loop_body_end, hend])
        (by rw [sample_loop_body_reads]; omega)
      simpa [sample_loop_run, hcond] using this
    · have hk : s.reads = n := by omega
      refine ⟨s, ?_, hk, by rw [hnow, hk]⟩
      apply sample_loop_run_exit
      rw [hnow, hend, hk]
      omega

/-- C5: with a strictly increasing clock and a positive `timeout_tsc`, there is a first
reading `n ≥ 1` that is not below `begin + timeout_tsc`; when the clock has not wrapped
around up to that reading, `sample_loop` exits, with any `sample_tsc` and any idle
times, right after iteration `n`. -/
theorem sample_loop_terminates (clk : Nat → Nat) (hmono : StrictMono clk)
    (idle : Nat → Nat → Nat) (cpus : List cpu_info) (cpu : Nat) (ci : cpu_info)
    (hci : cpus[cpu]? = some ci) (hT : 0 < ci.timeout_tsc) :
    ∃ n, 1 ≤ n ∧ clk 0 + ci.timeout_tsc ≤ clk n ∧
      (∀ i, i < n → clk i < clk 0 + ci.timeout_tsc) ∧
      (clk n < 2 ^ 64 → ∀ fuel, n ≤ fuel →
        ∃ r, sample_loop clk idle cpus cpu fuel = some r ∧ r.reads = n ∧ r.now = clk n) := by
  have hex : ∃ i, clk 0 + ci.timeout_tsc ≤ clk i := ⟨ci.timeout_tsc, clock_ge clk hmono _⟩
  classical
  refine ⟨Nat.find hex, ?_, Nat.find_spec hex, ?_, ?_⟩
  · by_contra h0
    have hz : Nat.find hex = 0 := by omega
    have := Nat.find_spec hex
    rw [hz] at this
    omega
  · intro i hi
    have := Nat.find_min hex hi
    omega
  · intro hwrap fuel hfuel
    have h0 : clk 0 < 2 ^ 64 := lt_of_le_of_lt (hmono.monotone (Nat.zero_le _)) hwrap
    have hE : clk 0 + ci.timeout_tsc < 2 ^ 64 := lt_of_le_of_lt (Nat.find_spec hex) hwrap
    unfold sample_loop
    rw [hci]
    simp only
    apply sample_loop_run_reaches clk hmono idle cpu ci.sample_tsc
      (clk 0 + ci.timeout_tsc) (Nat.find hex) (Nat.find_spec hex) _ hwrap
    · simp [sample_loop_init]
    · simp [sample_loop_init, rdtsc_of_lt h0]
    · simp [sample_loop_init, rdtsc_of_lt h0, wrapULL_of_lt hE]
    · simpa [sample_loop_init] using hfuel
    · intro i hi
      have := Nat.find_min hex hi
      omega

/-- C5, with a clock of 300 ticks per reading and a timeout of 1000 ticks: the loop
exits right after the fourth iteration, whose reading 2200 is the first one that is not
below 2000. -/
theorem sample_loop_terminates_witness :
    ∃ r, sample_loop (fun i => 1000 + 300 * i) (get_idle_time_const ⟨10, 10, 40, 1, 5⟩)
        [⟨250, 1000, 0, 0⟩] 0 10 = some r ∧ r.reads = 4 ∧ r.now = 2200 := by
  obtain ⟨n, _, h2, h3, h4⟩ := sample_loop_terminates (fun i => 1000 + 300 * i)
    (fun a b h => by show 1000 + 300 * a < 1000 + 300 * b; omega)
    (get_idle_time_const ⟨10, 10, 40, 1, 5⟩) [⟨250, 1000, 0, 0⟩] 0 ⟨250, 1000, 0, 0⟩ rfl
    (by decide)
  simp only at h2 h3 h4
  have hn : n = 4 := by
    have hge : 4 ≤ n := by omega
    by_contra hne
    have := h3 4 (by omega)
    omega
  subst hn
  exact h4 (by norm_num) 10 (by norm_num)

theorem sample_loop_step_fixed (clk : Nat → Nat) (idle : Nat → Nat → Nat)
    (cpu sample_tsc : Nat) (s : LoopState) (h : ¬ s.now < s.end_) (k : Nat) :
    (sample_loop_step clk idle cpu sample_tsc)^[k] s = s := by
  apply Function.iterate_fixed
  simp [sample_loop_step, h]

theorem sample_loop_run_eq_iterate (clk : Nat → Nat) (idle : Nat → Nat → Nat)
    (cpu sample_tsc : Nat) :
    ∀ (fuel : Nat) (s r : LoopState),
      sample_loop_run clk idle cpu sample_tsc fuel s = some r →
      r = (sample_loop_step clk idle cpu sample_tsc)^[fuel] s := by
  intro fuel
  induction fuel with
  | zero =>
    intro s r h
    by_cases hc : s.now < s.end_
    · simp [sample_loop_run, hc] at h
    · simp [sample_loop_run, hc] at h
      simp [h]
  | succ fuel ih =>
    intro s r h
    by_cases hc : s.now < s.end_
    · simp only [sample_loop_run, hc, if_true] at h
      rw [Function.iterate_succ_apply]
      have hstep : sample_loop_step clk idle cpu sample_tsc s
          = sample_loop_body clk idle cpu sample_tsc s := by
        simp [sample_loop_step, hc]
      rw [hstep]
      exact ih _ _ h
    · simp [sample_loop_run, hc] at h
      rw [sample_loop_step_fixed clk idle cpu sample_tsc s hc]
      exact h.symm

theorem loopInv_init (clk : Nat → Nat) (sample_tsc timeout_tsc : Nat)
    (hs : 0 < sample_tsc) (h0 : clk 0 + sample_tsc < 2 ^ 64) :
    LoopInv clk sample_tsc timeout_tsc 0 (sample_loop_init clk sample_tsc timeout_tsc) := by
  have hc : rdtsc clk 0 = clk 0 := rdtsc_of_lt (by omega)
  refine ⟨by simp [sample_loop_init], by simp [sample_loop_init, hc],
    by simp [sample_loop_init, hc], by simp [sample_loop_init, hc], ?_,
    Or.inl (by simp [sample_loop_init]), ?_, ?_⟩
  · simp [sample_loop_init, hc, wrapULL_of_lt h0]
  · intro j hj
    simp [sample_loop_init] at hj
  · simp [sample_loop_init]
    omega

theorem loopInv_step (clk : Nat → Nat) (hmono : StrictMono clk) (idle : Nat → Nat → Nat)
    (cpu sample_tsc timeout_tsc k : Nat) (s : LoopState)
    (hs : 0 < sample_tsc) (hT : timeout_tsc < 2 ^ 64)
    (hk : clk (k + 1) + sample_tsc < 2 ^ 64)
    (inv : LoopInv clk sample_tsc timeout_tsc k s) :
    LoopInv clk sample_tsc timeout_tsc (k + 1) (sample_loop_step clk idle cpu sample_tsc s) := by
  obtain ⟨hreads, hbegin, hnow, hend, htmp, hlast, helapse, hcount⟩ := inv
  by_cases hc : s.now < s.end_
  · have hstep : sample_loop_step clk idle cpu sample_tsc s
        = sample_loop_body clk idle cpu sample_tsc s := by
      simp [sample_loop_step, hc]
    rw [hstep]
    have hle0 : clk 0 ≤ clk s.reads := hmono.monotone (Nat.zero_le _)
    have hle1 : clk (s.reads + 1) ≤ clk (k + 1) := hmono.monotone (by omega)
    have hlt1 : clk s.reads < clk (s.reads + 1) := hmono (Nat.lt_succ_self _)
    have hrd : rdtsc clk (s.reads + 1) = clk (s.reads + 1) := rdtsc_of_lt (by omega)
    have hEnd : s.end_ = clk 0 + timeout_tsc := by
      rw [hend]
      by_contra hne
      have hwrapped : ¬ clk 0 + timeout_tsc < 2 ^ 64 := fun h => hne (wrapULL_of_lt h)
      rw [hend, hnow] at hc
      unfold wrapULL at hc
      omega
    rw [hEnd, hnow] at hc
    unfold sample_loop_body
    simp only [hrd]
    by_cases hcall : s.tmp < clk (s.reads + 1)
    · have hel : wrapULL (clk (s.reads + 1) + 2 ^ 64 - s.begin)
          = clk (s.reads + 1) - clk 0 := by
        rw [hbegin]
        unfold wrapULL
        omega
      have htw : wrapULL (s.tmp + sample_tsc) = s.tmp + sample_tsc :=
        wrapULL_of_lt (by omega)
      simp only [hcall, if_true, hel, htw]
      refine ⟨by simp; omega, hbegin, rfl, by simpa using hend, ?_, Or.inr ?_, ?_, ?_⟩
      · simp only [List.length_append, List.length_singleton]
        rw [htmp]
        ring
      · simp only [List.length_append, List.length_singleton]
        rw [htmp] at hcall
        exact hcall
      · intro j hj
        simp only [List.length_append, List.length_singleton] at hj
        rcases Nat.lt_or_ge j s.calls.length with hjl | hjl
        · have := helapse j hjl
          simpa [List.get_eq_getElem, List.getElem_append_left, hjl] using this
        · have hje : j = s.calls.length := by omega
          subst hje
          rw [htmp] at hcall
          simp only [List.get_eq_getElem, List.getElem_concat_length]
          omega
      · simp only [List.length_append, List.length_singleton]
        have hbase : s.calls.length * sample_tsc < timeout_tsc := by
          rcases hlast with h0 | hpos
          · rw [h0]
            omega
          · rw [hnow] at hpos
            omega
        have : (s.calls.length + 1) * sample_tsc = s.calls.length * sample_tsc + sample_tsc := by
          ring
        omega
    · simp only [hcall, if_false]
      refine ⟨by simp; omega, hbegin, rfl, by simpa using hend, htmp, ?_, helapse, hcount⟩
      rcases hlast with h0 | hpos
      · exact Or.inl h0
      · refine Or.inr ?_
        rw [hnow] at hpos
        show clk 0 + s.calls.length * sample_tsc < clk (s.reads + 1)
        omega
  · have hstep : sample_loop_step clk idle cpu sample_tsc s = s := by
      simp [sample_loop_step, hc]
    rw [hstep]
    exact ⟨by omega, hbegin, hnow, hend, htmp, hlast, helapse, hcount⟩

theorem loopInv_iterate (clk : Nat → Nat) (hmono : StrictMono clk) (idle : Nat → Nat → Nat)
    (cpu sample_tsc timeout_tsc : Nat) (hs : 0 < sample_tsc) (hT : timeout_tsc < 2 ^ 64) :
    ∀ k, clk k + sample_tsc < 2 ^ 64 →
      LoopInv clk sample_tsc timeout_tsc k
        ((sample_loop_step clk idle cpu sample_tsc)^[k]
          (sample_loop_init clk sample_tsc timeout_tsc)) := by
  intro k
  induction k with
  | zero =>
    intro h0
    exact loopInv_init clk sample_tsc timeout_tsc hs h0
  | succ k ih =>
    intro hk
    have hlt : clk k < clk (k + 1) := hmono (Nat.lt_succ_self k)
    rw [Function.iterate_succ_apply']
    exact loopInv_step clk hmono idle cpu sample_tsc timeout_tsc k _ hs hT hk (ih (by omega))

/-- C10: with a strictly increasing clock, `sample_tsc > 0` and no wraparound (the
readings made so far, and one sample window after them, stay below `2 ^ 64`), after any
number `k` of iterations of the loop of `sample_loop` the threshold `tmp` is
`begin + (j + 1) * sample_tsc`, where `j` is the number of calls of `get_idle_time` made
so far, the call number `j + 1` was made with an elapsed argument above
`(j + 1) * sample_tsc`, and the number of calls is at most the ceiling of
`timeout_tsc / sample_tsc`; the state in which `sample_loop` exits is one of these
states. -/
theorem sample_loop_window_bound (clk : Nat → Nat) (hmono : StrictMono clk)
    (idle : Nat → Nat → Nat) (cpus : List cpu_info) (cpu : Nat) (ci : cpu_info)
    (hci : cpus[cpu]? = some ci) (hs : 0 < ci.sample_tsc) (hT : ci.timeout_tsc < 2 ^ 64)
    (k : Nat) (hk : clk k + ci.sample_tsc < 2 ^ 64) (st : LoopState)
    (hst : st = (sample_loop_step clk idle cpu ci.sample_tsc)^[k]
      (sample_loop_init clk ci.sample_tsc ci.timeout_tsc)) :
    st.tmp = st.begin + (st.calls.length + 1) * ci.sample_tsc ∧
      (∀ (j : Nat) (hj : j < st.calls.length),
        (j + 1) * ci.sample_tsc < (st.calls.get ⟨j, hj⟩).elapse) ∧
      st.calls.length ≤ (ci.timeout_tsc + ci.sample_tsc - 1) / ci.sample_tsc ∧
      (∀ r, sample_loop clk idle cpus cpu k = some r → r = st) := by
  have inv := loopInv_iterate clk hmono idle cpu ci.sample_tsc ci.timeout_tsc hs hT k hk
  rw [← hst] at inv
  refine ⟨by rw [inv.tmp_eq, inv.begin_eq], inv.elapse_gt, ?_, ?_⟩
  · rw [Nat.le_div_iff_mul_le hs]
    have := inv.count_lt
    omega
  · intro r hr
    unfold sample_loop at hr
    rw [hci] at hr
    rw [hst]
    exact sample_loop_run_eq_iterate clk idle cpu ci.sample_tsc k _ r hr

/-- C10, with a clock of 300 ticks per reading, windows of 250 ticks and a timeout of
1000 ticks, after 4 iterations. -/
theorem sample_loop_window_bound_witness :
    ((sample_loop_step (fun i => 1000 + 300 * i) (get_idle_time_const ⟨10, 10, 40, 1, 5⟩)
        0 250)^[4] (sample_loop_init (fun i => 1000 + 300 * i) 250 1000)).calls.length
      ≤ (1000 + 250 - 1) / 250 :=
  (sample_loop_window_bound (fun i => 1000 + 300 * i)
    (fun a b h => by show 1000 + 300 * a < 1000 + 300 * b; omega)
    (get_idle_time_const ⟨10, 10, 40, 1, 5⟩) [⟨250, 1000, 0, 0⟩] 0 ⟨250, 1000, 0, 0⟩ rfl
    (by decide) (by decide) 4 (by decide) _ rfl).2.2.1

/-! ## Binary floating point -/

theorem floor_le_roundEven (q : ℝ) : ⌊q⌋ ≤ roundEven q := by
  unfold roundEven
  split_ifs <;> omega

theorem roundEven_le_floor_add_one (q : ℝ) : roundEven q ≤ ⌊q⌋ + 1 := by
  unfold roundEven
  split_ifs <;> omega

theorem roundEven_intCast (n : ℤ) : roundEven (n : ℝ) = n := by
  unfold roundEven
  simp

theorem int_le_roundEven {q : ℝ} {n : ℤ} (h : (n : ℝ) ≤ q) : n ≤ roundEven q :=
  le_trans (Int.le_floor.2 h) (floor_le_roundEven q)

theorem roundEven_le_int {q : ℝ} {n : ℤ} (h : q ≤ (n : ℝ)) : roundEven q ≤ n := by
  rcases eq_or_lt_of_le h with heq | hlt
  · rw [heq, roundEven_intCast]
  · have hfl : ⌊q⌋ < n := Int.floor_lt.2 hlt
    have := roundEven_le_floor_add_one q
    omega

theorem abs_roundEven_sub_le (q : ℝ) : |(roundEven q : ℝ) - q| ≤ 1 / 2 := by
  have h1 := Int.floor_le q
  have h2 := Int.lt_floor_add_one q
  unfold roundEven
  rw [abs_le]
  split_ifs with ha hb hc
  · constructor <;> linarith
  · push_cast
    constructor <;> linarith
  · push_neg at ha hb
    constructor <;> linarith
  · push_neg at ha hb
    push_cast
    constructor <;> linarith

theorem roundEven_eq_of_abs_lt {q : ℝ} {n : ℤ} (h : |q - (n : ℝ)| < 1 / 2) :
    roundEven q = n := by
  have h1 := abs_roundEven_sub_le q
  rw [abs_lt] at h
  rw [abs_le] at h1
  have hlt : ((roundEven q : ℤ) : ℝ) < (n : ℝ) + 1 := by linarith
  have hgt : ((n : ℤ) : ℝ) < (roundEven q : ℝ) + 1 := by linarith
  have hlt1 : roundEven q < n + 1 := by exact_mod_cast hlt
  have hgt1 : n < roundEven q + 1 := by exact_mod_cast hgt
  omega

theorem roundEven_half (n : ℤ) :
    roundEven ((n : ℝ) + 1 / 2) = if Even n then n else n + 1 := by
  have hfl : ⌊(n : ℝ) + 1 / 2⌋ = n := by
    rw [Int.floor_eq_iff]
    constructor <;> linarith
  unfold roundEven
  rw [hfl]
  have h1 : ¬ ((n : ℝ) + 1 / 2 - (n : ℝ) < 1 / 2) := by
    have : (n : ℝ) + 1 / 2 - (n : ℝ) = 1 / 2 := by ring
    rw [this]
    exact lt_irrefl _
  have h2 : ¬ ((1 : ℝ) / 2 < (n : ℝ) + 1 / 2 - (n : ℝ)) := by
    have : (n : ℝ) + 1 / 2 - (n : ℝ) = 1 / 2 := by ring
    rw [this]
    exact lt_irrefl _
  simp only [h1, h2, if_false]

theorem log_two_eq {x : ℝ} {e : ℤ} (hx : 0 < x) (h1 : (2 : ℝ) ^ e ≤ x)
    (h2 : x < (2 : ℝ) ^ (e + 1)) : Int.log 2 x = e := by
  have a : e ≤ Int.log 2 x :=
    (Int.zpow_le_iff_le_log (by norm_num) hx).1 (by exact_mod_cast h1)
  have b : Int.log 2 x < e + 1 :=
    (Int.lt_zpow_iff_log_lt (by norm_num) hx).1 (by exact_mod_cast h2)
  omega

theorem zpow_log_two_le {x : ℝ} (hx : 0 < x) : (2 : ℝ) ^ Int.log 2 x ≤ x := by
  have := Int.zpow_log_le_self (b := 2) (r := x) (by norm_num) hx
  exact_mod_cast this

theorem lt_zpow_log_two_succ (x : ℝ) : x < (2 : ℝ) ^ (Int.log 2 x + 1) := by
  have := Int.lt_zpow_succ_log_self (b := 2) (by norm_num) x
  exact_mod_cast this

theorem ulp_pos (p : ℕ) (x : ℝ) : 0 < ulp p x := by
  unfold ulp
  positivity

theorem roundMag_of_binade (p : ℕ) {x : ℝ} {e : ℤ} (hx : 0 < x) (h1 : (2 : ℝ) ^ e ≤ x)
    (h2 : x < (2 : ℝ) ^ (e + 1)) :
    roundMag p x = (roundEven (x / (2 : ℝ) ^ (e + 1 - (p : ℤ))) : ℝ)
      * (2 : ℝ) ^ (e + 1 - (p : ℤ)) := by
  unfold roundMag ulp
  rw [log_two_eq hx h1 h2]

theorem roundMag_zero (p : ℕ) : roundMag p 0 = 0 := by
  unfold roundMag
  simp [roundEven]

theorem abs_roundMag_sub_le (p : ℕ) {x : ℝ} (hx : 0 < x) :
    |roundMag p x - x| ≤ (2 : ℝ) ^ (-(p : ℤ)) * x := by
  have hu := ulp_pos p x
  have hq := abs_roundEven_sub_le (x / ulp p x)
  have hxu : x = x / ulp p x * ulp p x := by
    field_simp
  have hdiff : roundMag p x - x = ((roundEven (x / ulp p x) : ℝ) - x / ulp p x) * ulp p x := by
    unfold roundMag
    rw [sub_mul, ← hxu]
  rw [hdiff, abs_mul, abs_of_pos hu]
  have hhalf : ulp p x * (1 / 2) ≤ (2 : ℝ) ^ (-(p : ℤ)) * x := by
    have hlog := zpow_log_two_le hx
    have hsplit : ulp p x * (1 / 2) = (2 : ℝ) ^ (-(p : ℤ)) * (2 : ℝ) ^ Int.log 2 x := by
      unfold ulp
      have : Int.log 2 x + 1 - (p : ℤ) = -(p : ℤ) + Int.log 2 x + 1 := by ring
      rw [this, zpow_add₀ (two_ne_zero), zpow_add₀ (two_ne_zero)]
      simp
    rw [hsplit]
    exact mul_le_mul_of_nonneg_left hlog (by positivity)
  calc |(roundEven (x / ulp p x) : ℝ) - x / ulp p x| * ulp p x
      ≤ 1 / 2 * ulp p x := mul_le_mul_of_nonneg_right hq hu.le
    _ = ulp p x * (1 / 2) := by ring
    _ ≤ (2 : ℝ) ^ (-(p : ℤ)) * x := hhalf

theorem abs_roundBinary_sub_le (p : ℕ) (x : ℝ) :
    |roundBinary p x - x| ≤ (2 : ℝ) ^ (-(p : ℤ)) * |x| := by
  unfold roundBinary
  rcases lt_trichotomy x 0 with hneg | hzero | hpos
  · have hnx : 0 < -x := by linarith
    rw [if_neg (not_le.2 hneg), abs_of_neg hneg]
    have := abs_roundMag_sub_le p hnx
    have heq : -roundMag p (-x) - x = -(roundMag p (-x) - -x) := by ring
    rw [heq, abs_neg]
    exact this
  · subst hzero
    simp [roundMag_zero]
  · rw [if_pos hpos.le, abs_of_pos hpos]
    exact abs_roundMag_sub_le p hpos

theorem roundMag_nonneg (p : ℕ) {x : ℝ} (hx : 0 ≤ x) : 0 ≤ roundMag p x := by
  unfold roundMag
  have hu := ulp_pos p x
  have hq : (0 : ℝ) ≤ x / ulp p x := div_nonneg hx hu.le
  have h0 : (0 : ℤ) ≤ roundEven (x / ulp p x) := int_le_roundEven (by exact_mod_cast hq)
  have h0r : (0 : ℝ) ≤ (roundEven (x / ulp p x) : ℝ) := by exact_mod_cast h0
  exact mul_nonneg h0r hu.le

theorem two_zpow_split (E e1 : ℤ) (h : e1 ≤ E) :
    (2 : ℝ) ^ E = ((2 ^ (E - e1).toNat : ℤ) : ℝ) * (2 : ℝ) ^ e1 := by
  have hk : ((E - e1).toNat : ℤ) = E - e1 := Int.toNat_of_nonneg (by omega)
  have hE : E = ((E - e1).toNat : ℤ) + e1 := by omega
  conv_lhs => rw [hE]
  rw [zpow_add₀ (two_ne_zero), zpow_natCast]
  push_cast
  ring

theorem roundMag_le_of_rep (p : ℕ) {x : ℝ} {m E : ℤ} (hx : 0 < x)
    (hxb : x ≤ (m : ℝ) * (2 : ℝ) ^ E) (hm : m < 2 ^ p) :
    roundMag p x ≤ (m : ℝ) * (2 : ℝ) ^ E := by
  have hlog := zpow_log_two_le hx
  have hE : (0 : ℝ) < (2 : ℝ) ^ E := by positivity
  have hmr : (m : ℝ) < (2 : ℝ) ^ (p : ℤ) := by
    rw [zpow_natCast]
    exact_mod_cast hm
  have hlt : (2 : ℝ) ^ Int.log 2 x < (2 : ℝ) ^ ((p : ℤ) + E) := by
    rw [zpow_add₀ (two_ne_zero)]
    calc (2 : ℝ) ^ Int.log 2 x ≤ x := hlog
      _ ≤ (m : ℝ) * (2 : ℝ) ^ E := hxb
      _ < (2 : ℝ) ^ (p : ℤ) * (2 : ℝ) ^ E := mul_lt_mul_of_pos_right hmr hE
  have hexp : Int.log 2 x < (p : ℤ) + E := (zpow_lt_zpow_iff_right₀ (by norm_num)).1 hlt
  have hu := ulp_pos p x
  have hsplit := two_zpow_split E (Int.log 2 x + 1 - (p : ℤ)) (by omega)
  have hb : (m : ℝ) * (2 : ℝ) ^ E
      = ((m * 2 ^ (E - (Int.log 2 x + 1 - (p : ℤ))).toNat : ℤ) : ℝ) * ulp p x := by
    unfold ulp
    rw [hsplit]
    push_cast
    ring
  have hq : x / ulp p x ≤ ((m * 2 ^ (E - (Int.log 2 x + 1 - (p : ℤ))).toNat : ℤ) : ℝ) := by
    rw [div_le_iff₀ hu, ← hb]
    exact hxb
  have hr := roundEven_le_int hq
  have hrr : (roundEven (x / ulp p x) : ℝ)
      ≤ ((m * 2 ^ (E - (Int.log 2 x + 1 - (p : ℤ))).toNat : ℤ) : ℝ) := by exact_mod_cast hr
  rw [hb]
  unfold roundMag
  exact mul_le_mul_of_nonneg_right hrr hu.le

theorem rep_le_roundMag (p : ℕ) (hp : 1 ≤ p) {x : ℝ} {m E : ℤ} (hx : 0 < x)
    (hax : (m : ℝ) * (2 : ℝ) ^ E ≤ x) (hm : m < 2 ^ p) :
    (m : ℝ) * (2 : ℝ) ^ E ≤ roundMag p x := by
  have hlog := zpow_log_two_le hx
  have hE : (0 : ℝ) < (2 : ℝ) ^ E := by positivity
  have hu := ulp_pos p x
  rcases le_or_lt (Int.log 2 x + 1 - (p : ℤ)) E with hcase | hcase
  · have hsplit := two_zpow_split E (Int.log 2 x + 1 - (p : ℤ)) hcase
    have hb : (m : ℝ) * (2 : ℝ) ^ E
        = ((m * 2 ^ (E - (Int.log 2 x + 1 - (p : ℤ))).toNat : ℤ) : ℝ) * ulp p x := by
      unfold ulp
      rw [hsplit]
      push_cast
      ring
    have hq : ((m * 2 ^ (E - (Int.log 2 x + 1 - (p : ℤ))).toNat : ℤ) : ℝ) ≤ x / ulp p x := by
      rw [le_div_iff₀ hu, ← hb]
      exact hax
    have hr := int_le_roundEven hq
    have hrr : ((m * 2 ^ (E - (Int.log 2 x + 1 - (p : ℤ))).toNat : ℤ) : ℝ)
        ≤ (roundEven (x / ulp p x) : ℝ) := by exact_mod_cast hr
    rw [hb]
    unfold roundMag
    exact mul_le_mul_of_nonneg_right hrr hu.le
  · have hmr : (m : ℝ) ≤ (2 : ℝ) ^ (p : ℤ) := by
      rw [zpow_natCast]
      exact_mod_cast hm.le
    have ha : (m : ℝ) * (2 : ℝ) ^ E ≤ (2 : ℝ) ^ Int.log 2 x := by
      calc (m : ℝ) * (2 : ℝ) ^ E ≤ (2 : ℝ) ^ (p : ℤ) * (2 : ℝ) ^ E :=
            mul_le_mul_of_nonneg_right hmr hE.le
        _ = (2 : ℝ) ^ ((p : ℤ) + E) := (zpow_add₀ (two_ne_zero) _ _).symm
        _ ≤ (2 : ℝ) ^ Int.log 2 x := zpow_le_zpow_right₀ (by norm_num) (by omega)
    have hsplit := two_zpow_split (Int.log 2 x) (Int.log 2 x + 1 - (p : ℤ)) (by omega)
    have hb : (2 : ℝ) ^ Int.log 2 x
        = ((2 ^ (Int.log 2 x - (Int.log 2 x + 1 - (p : ℤ))).toNat : ℤ) : ℝ) * ulp p x := by
      unfold ulp
      exact hsplit
    have hq : ((2 ^ (Int.log 2 x - (Int.log 2 x + 1 - (p : ℤ))).toNat : ℤ) : ℝ)
        ≤ x / ulp p x := by
      rw [le_div_iff₀ hu, ← hb]
      exact hlog
    have hr := int_le_roundEven hq
    have hrr : ((2 ^ (Int.log 2 x - (Int.log 2 x + 1 - (p : ℤ))).toNat : ℤ) : ℝ)
        ≤ (roundEven (x / ulp p x) : ℝ) := by exact_mod_cast hr
    refine le_trans ha ?_
    rw [hb]
    unfold roundMag
    exact mul_le_mul_of_nonneg_right hrr hu.le

theorem roundBinary_le_of_rep (p : ℕ) (hp : 1 ≤ p) {x b : ℝ} (hxb : x ≤ b)
    (hb : IsRep p b) : roundBinary p x ≤ b := by
  obtain ⟨m, E, hm, rfl⟩ := hb
  rw [abs_lt] at hm
  unfold roundBinary
  rcases lt_trichotomy x 0 with hneg | hzero | hpos
  · rw [if_neg (not_le.2 hneg)]
    have hnx : 0 < -x := by linarith
    rcases le_or_lt 0 ((m : ℝ) * (2 : ℝ) ^ E) with hb0 | hb0
    · have := roundMag_nonneg p hnx.le
      linarith
    · have hle : ((-m : ℤ) : ℝ) * (2 : ℝ) ^ E ≤ -x := by
        push_cast
        linarith
      have := rep_le_roundMag p hp hnx hle (by omega)
      push_cast at this
      linarith
  · subst hzero
    simpa [roundMag_zero] using hxb
  · rw [if_pos hpos.le]
    exact roundMag_le_of_rep p hpos hxb hm.2

theorem rep_le_roundBinary (p : ℕ) (hp : 1 ≤ p) {x a : ℝ} (hax : a ≤ x)
    (ha : IsRep p a) : a ≤ roundBinary p x := by
  obtain ⟨m, E, hm, rfl⟩ := ha
  rw [abs_lt] at hm
  unfold roundBinary
  rcases lt_trichotomy x 0 with hneg | hzero | hpos
  · rw [if_neg (not_le.2 hneg)]
    have hnx : 0 < -x := by linarith
    have hle : -x ≤ ((-m : ℤ) : ℝ) * (2 : ℝ) ^ E := by
      push_cast
      linarith
    have := roundMag_le_of_rep p hnx hle (by omega)
    push_cast at this
    linarith
  · subst hzero
    simpa [roundMag_zero] using hax
  · rw [if_pos hpos.le]
    exact rep_le_roundMag p hp hpos hax hm.2

theorem roundBinary_of_isRep (p : ℕ) (hp : 1 ≤ p) {b : ℝ} (hb : IsRep p b) :
    roundBinary p b = b :=
  le_antisymm (roundBinary_le_of_rep p hp le_rfl hb) (rep_le_roundBinary p hp le_rfl hb)

theorem isRep_intCast (p : ℕ) (z : ℤ) (h : |z| < 2 ^ p) : IsRep p (z : ℝ) :=
  ⟨z, 0, h, by simp⟩

theorem isRep_int_mul_two_pow (p : ℕ) (z : ℤ) (k : ℕ) (h : |z| < 2 ^ p) :
    IsRep p ((z : ℝ) * 2 ^ k) :=
  ⟨z, k, h, by rw [zpow_natCast]⟩

theorem isRep_half (p : ℕ) (hp : 1 ≤ p) : IsRep p (0.5 : ℝ) := by
  refine ⟨1, -1, ?_, by norm_num⟩
  have : (1 : ℤ) < 2 ^ p := one_lt_pow₀ (by norm_num) (by omega)
  simpa using this

/-! ## The wave load shape -/

theorem isRep_natCast (p : ℕ) (n : ℕ) (h : n < 2 ^ p) : IsRep p (n : ℝ) := by
  refine ⟨(n : ℤ), 0, ?_, by simp⟩
  rw [abs_of_nonneg (by positivity)]
  exact_mod_cast h

theorem isRep_zero (p : ℕ) : IsRep p (0 : ℝ) :=
  ⟨0, 0, by simp, by simp⟩

theorem isRep_one (p : ℕ) (hp : 1 ≤ p) : IsRep p (1 : ℝ) := by
  refine ⟨1, 0, ?_, by simp⟩
  have : (1 : ℤ) < 2 ^ p := one_lt_pow₀ (by norm_num) (by omega)
  simpa using this

theorem isRep_neg (p : ℕ) {b : ℝ} (h : IsRep p b) : IsRep p (-b) := by
  obtain ⟨m, e, hm, rfl⟩ := h
  exact ⟨-m, e, by simpa using hm, by push_cast; ring⟩

theorem roundBinary_zero (p : ℕ) : roundBinary p 0 = 0 := by
  unfold roundBinary
  simp [roundMag_zero]

theorem to_float_of_isRep {b : ℝ} (h : IsRep 24 b) : to_float b = b :=
  roundBinary_of_isRep 24 (by norm_num) h

theorem to_double_of_isRep {b : ℝ} (h : IsRep 53 b) : to_double b = b :=
  roundBinary_of_isRep 53 (by norm_num) h

theorem to_float_near {x a b M : ℝ} (ha : a ≤ x) (hb : x ≤ b)
    (hM1 : -M ≤ a) (hM2 : b ≤ M) :
    a - M / 10000000 ≤ to_float x ∧ to_float x ≤ b + M / 10000000 := by
  have h := abs_roundBinary_sub_le 24 x
  have hx : |x| ≤ M := abs_le.2 ⟨by linarith, by linarith⟩
  have heps : (2 : ℝ) ^ (-((24 : ℕ) : ℤ)) ≤ 1 / 10000000 := by norm_num
  have hM : 0 ≤ M := le_trans (abs_nonneg x) hx
  have hbd : (2 : ℝ) ^ (-((24 : ℕ) : ℤ)) * |x| ≤ M / 10000000 := by
    calc (2 : ℝ) ^ (-((24 : ℕ) : ℤ)) * |x| ≤ 1 / 10000000 * M :=
          mul_le_mul heps hx (abs_nonneg x) (by norm_num)
      _ = M / 10000000 := by ring
  have h2 := le_trans h hbd
  rw [abs_le] at h2
  unfold to_float
  constructor <;> linarith [h2.1, h2.2]

theorem to_double_near {x a b M : ℝ} (ha : a ≤ x) (hb : x ≤ b)
    (hM1 : -M ≤ a) (hM2 : b ≤ M) :
    a - M / 5000000000000000 ≤ to_double x ∧ to_double x ≤ b + M / 5000000000000000 := by
  have h := abs_roundBinary_sub_le 53 x
  have hx : |x| ≤ M := abs_le.2 ⟨by linarith, by linarith⟩
  have heps : (2 : ℝ) ^ (-((53 : ℕ) : ℤ)) ≤ 1 / 5000000000000000 := by norm_num
  have hM : 0 ≤ M := le_trans (abs_nonneg x) hx
  have hbd : (2 : ℝ) ^ (-((53 : ℕ) : ℤ)) * |x| ≤ M / 5000000000000000 := by
    calc (2 : ℝ) ^ (-((53 : ℕ) : ℤ)) * |x| ≤ 1 / 5000000000000000 * M :=
          mul_le_mul heps hx (abs_nonneg x) (by norm_num)
      _ = M / 5000000000000000 := by ring
  have h2 := le_trans h hbd
  rw [abs_le] at h2
  unfold to_double
  constructor <;> linarith [h2.1, h2.2]

/-- The constant `2.0 * PI` of the program, as a `double`. -/
theorem two_pi_const_near :
    6.28 - 1 / 100000000000000 ≤ to_double (2.0 * to_double (PI : ℝ)) ∧
      to_double (2.0 * to_double (PI : ℝ)) ≤ 6.28 + 1 / 100000000000000 := by
  have hPI : ((PI : ℚ) : ℝ) = 3.14 := by
    unfold PI
    norm_num
  rw [hPI]
  obtain ⟨a1, a2⟩ := to_double_near (x := (3.14 : ℝ)) (a := 3.14) (b := 3.14) (M := 4)
    le_rfl le_rfl (by norm_num) (by norm_num)
  obtain ⟨b1, b2⟩ := to_double_near (x := 2.0 * to_double (3.14 : ℝ))
    (a := 2.0 * (3.14 - 4 / 5000000000000000)) (b := 2.0 * (3.14 + 4 / 5000000000000000))
    (M := 8) (by linarith) (by linarith) (by norm_num) (by norm_num)
  constructor
  · refine le_trans ?_ b1
    norm_num
  · refine le_trans b2 ?_
    norm_num

theorem to_float_sin_arg_near (P E : ℕ) (hP0 : 0 < P) (hP : P < 2 ^ 53) (hE : E < 2 ^ 53) :
    (6.28 - 8 / 10000000) * ((E : ℝ) / (P : ℝ)) ≤ to_float (sin_arg P E) ∧
      to_float (sin_arg P E) ≤ (6.28 + 8 / 10000000) * ((E : ℝ) / (P : ℝ)) := by
  obtain ⟨c1, c2⟩ := two_pi_const_near
  have hEr : (0 : ℝ) ≤ (E : ℝ) := by positivity
  have hPr : (0 : ℝ) < (P : ℝ) := by exact_mod_cast hP0
  have hq : (0 : ℝ) ≤ (E : ℝ) / (P : ℝ) := div_nonneg hEr hPr.le
  unfold sin_arg
  rw [to_double_of_isRep (isRep_natCast 53 E hE), to_double_of_isRep (isRep_natCast 53 P hP)]
  obtain ⟨t1, t2⟩ := to_double_near
    (x := to_double (2.0 * to_double (PI : ℝ)) * (E : ℝ))
    (a := (6.28 - 1 / 100000000000000) * (E : ℝ))
    (b := (6.28 + 1 / 100000000000000) * (E : ℝ)) (M := 7 * (E : ℝ))
    (mul_le_mul_of_nonneg_right c1 hEr) (mul_le_mul_of_nonneg_right c2 hEr)
    (by linarith) (by linarith)
  obtain ⟨u1, u2⟩ := to_double_near
    (x := to_double (to_double (2.0 * to_double (PI : ℝ)) * (E : ℝ)) / (P : ℝ))
    (a := (6.28 - 2 / 100000000000000) * ((E : ℝ) / (P : ℝ)))
    (b := (6.28 + 2 / 100000000000000) * ((E : ℝ) / (P : ℝ)))
    (M := 7 * ((E : ℝ) / (P : ℝ)))
    (by
      rw [← mul_div_assoc]
      apply div_le_div_of_nonneg_right _ hPr.le
      linarith)
    (by
      rw [← mul_div_assoc]
      apply div_le_div_of_nonneg_right _ hPr.le
      linarith)
    (by linarith) (by linarith)
  obtain ⟨v1, v2⟩ := to_float_near (a := (6.28 - 3 / 100000000000000) * ((E : ℝ) / (P : ℝ)))
    (b := (6.28 + 3 / 100000000000000) * ((E : ℝ) / (P : ℝ)))
    (M := 7 * ((E : ℝ) / (P : ℝ))) (le_trans (by linarith) u1) (le_trans u2 (by linarith))
    (by linarith) (by linarith)
  constructor
  · refine le_trans ?_ v1
    linarith
  · refine le_trans v2 ?_
    linarith

theorem sin_pct_near (P E : ℕ) (lo hi : ℝ)
    (hlo : lo ≤ Real.sin (to_float (sin_arg P E)))
    (hhi : Real.sin (to_float (sin_arg P E)) ≤ hi) (h1 : -1 ≤ lo) (h2 : hi ≤ 1) :
    0.5 + 0.5 * lo - 3 / 10000000 ≤ sin_pct P E ∧
      sin_pct P E ≤ 0.5 + 0.5 * hi + 3 / 10000000 := by
  unfold sin_pct sinf
  obtain ⟨s1, s2⟩ := to_float_near (M := 1) hlo hhi (by linarith) (by linarith)
  obtain ⟨a1, a2⟩ := to_double_near
    (x := 0.5 * to_float (Real.sin (to_float (sin_arg P E))))
    (a := 0.5 * (lo - 1 / 10000000)) (b := 0.5 * (hi + 1 / 10000000)) (M := 1)
    (by linarith) (by linarith) (by linarith) (by linarith)
  obtain ⟨b1, b2⟩ := to_double_near
    (x := to_double (0.5 * to_float (Real.sin (to_float (sin_arg P E)))) + 0.5)
    (a := 0.5 * (lo - 1 / 10000000) - 1 / 5000000000000000 + 0.5)
    (b := 0.5 * (hi + 1 / 10000000) + 1 / 5000000000000000 + 0.5) (M := 2)
    (by linarith) (by linarith) (by linarith) (by linarith)
  obtain ⟨d1, d2⟩ := to_float_near (M := 2) b1 b2 (by linarith) (by linarith)
  constructor
  · refine le_trans ?_ d1
    linarith
  · refine le_trans d2 ?_
    linarith

theorem to_float_zero : to_float 0 = 0 := roundBinary_zero 24

theorem to_double_zero : to_double 0 = 0 := roundBinary_zero 53

theorem sin_pct_zero (P : ℕ) : sin_pct P 0 = 0.5 := by
  have harg : sin_arg P 0 = 0 := by
    unfold sin_arg
    simp [to_double_zero]
  unfold sin_pct sinf
  rw [harg, to_float_zero, Real.sin_zero, to_float_zero, mul_zero, to_double_zero, zero_add,
    to_double_of_isRep (isRep_half 53 (by norm_num)),
    to_float_of_isRep (isRep_half 24 (by norm_num))]

theorem float_to_ull_eq {v : ℝ} {n : ℕ} (h1 : (n : ℝ) ≤ v) (h2 : v < (n : ℝ) + 1)
    (hn : n < 2 ^ 63) : float_to_ull v = n := by
  have hnr : (n : ℝ) < (2 : ℝ) ^ 63 := by exact_mod_cast hn
  have hn1 : (n : ℝ) + 1 ≤ (2 : ℝ) ^ 63 := by exact_mod_cast hn
  have hv0 : (0 : ℝ) ≤ v := le_trans (by positivity) h1
  have hfl : ⌊v⌋ = (n : ℤ) := by
    rw [Int.floor_eq_iff]
    constructor
    · exact_mod_cast h1
    · exact_mod_cast h2
  unfold float_to_ull truncate
  rw [if_neg (by linarith), if_pos (by linarith), if_pos hv0, hfl]
  unfold toULL
  omega

theorem isRep_ten_thousand : IsRep 24 (10000 : ℝ) := by
  simpa using isRep_natCast 24 10000 (by norm_num)

theorem sin_idle_value_ten_ms_near (P E : ℕ) (plo phi : ℝ)
    (hlo : plo ≤ sin_pct P E) (hhi : sin_pct P E ≤ phi) (h0 : 0 ≤ plo) (h1 : phi ≤ 1) :
    10000 - 10000 * phi - 3 / 1000 ≤ sin_idle_value ⟨10, 10, 100, 2, 5⟩ P E ∧
      sin_idle_value ⟨10, 10, 100, 2, 5⟩ P E ≤ 10000 - 10000 * plo + 3 / 1000 := by
  have hw : wrapInt (10 * 1000) = 10000 := by decide
  unfold sin_idle_value
  simp only [hw]
  push_cast
  rw [to_float_of_isRep isRep_ten_thousand]
  obtain ⟨y1, y2⟩ := to_float_near (x := 10000 * sin_pct P E) (a := 10000 * plo)
    (b := 10000 * phi) (M := 10000) (by linarith) (by linarith) (by linarith) (by linarith)
  obtain ⟨v1, v2⟩ := to_float_near (x := 10000 - to_float (10000 * sin_pct P E))
    (a := 10000 - (10000 * phi + 10000 / 10000000))
    (b := 10000 - (10000 * plo - 10000 / 10000000)) (M := 20000)
    (by linarith) (by linarith) (by linarith) (by linarith)
  constructor
  · refine le_trans ?_ v1
    linarith
  · refine le_trans v2 ?_
    linarith

theorem sin_idle_value_ten_ms_zero (P : ℕ) :
    sin_idle_value ⟨10, 10, 100, 2, 5⟩ P 0 = 5000 := by
  have hw : wrapInt (10 * 1000) = 10000 := by decide
  have h5 : IsRep 24 (5000 : ℝ) := by
    simpa using isRep_natCast 24 5000 (by norm_num)
  unfold sin_idle_value
  simp only [hw]
  push_cast
  rw [to_float_of_isRep isRep_ten_thousand, sin_pct_zero]
  have e1 : (10000 : ℝ) * 0.5 = 5000 := by norm_num
  have e2 : (10000 : ℝ) - 5000 = 5000 := by norm_num
  rw [e1, to_float_of_isRep h5, e2, to_float_of_isRep h5]

theorem sin_one_period_bounds :
    -0.0031878 ≤ Real.sin (to_float (sin_arg 15000000000 15000000000)) ∧
      Real.sin (to_float (sin_arg 15000000000 15000000000)) ≤ -0.0031822 := by
  obtain ⟨x1, x2⟩ := to_float_sin_arg_near 15000000000 15000000000 (by norm_num)
    (by norm_num) (by norm_num)
  have hq : ((15000000000 : ℕ) : ℝ) / ((15000000000 : ℕ) : ℝ) = 1 := by norm_num
  rw [hq] at x1 x2
  generalize to_float (sin_arg 15000000000 15000000000) = x at x1 x2
  have hpl := Real.pi_gt_d6
  have hpu := Real.pi_lt_d6
  have hy0 : 0 < 2 * Real.pi - x := by linarith
  have hy1 : 2 * Real.pi - x ≤ 1 := by linarith
  have hlt := Real.sin_lt hy0
  have hgt := Real.sin_gt_sub_cube hy0 hy1
  have hrw : Real.sin x = -Real.sin (2 * Real.pi - x) := by
    rw [← Real.sin_neg]
    have : -(2 * Real.pi - x) = x - 2 * Real.pi := by ring
    rw [this, Real.sin_sub_two_pi]
  have hcube : (2 * Real.pi - x) ^ 3 < 0.0000001 := by
    have h2 : (2 * Real.pi - x) ^ 2 < 0.00002 := by nlinarith
    nlinarith
  rw [hrw]
  constructor <;> linarith

theorem sin_two_periods_bounds :
    -0.0063756 ≤ Real.sin (to_float (sin_arg 15000000000 30000000000)) ∧
      Real.sin (to_float (sin_arg 15000000000 30000000000)) ≤ -0.0063644 := by
  obtain ⟨x1, x2⟩ := to_float_sin_arg_near 15000000000 30000000000 (by norm_num)
    (by norm_num) (by norm_num)
  have hq : ((30000000000 : ℕ) : ℝ) / ((15000000000 : ℕ) : ℝ) = 2 := by norm_num
  rw [hq] at x1 x2
  generalize to_float (sin_arg 15000000000 30000000000) = x at x1 x2
  have hpl := Real.pi_gt_d6
  have hpu := Real.pi_lt_d6
  have hy0 : 0 < 4 * Real.pi - x := by linarith
  have hy1 : 4 * Real.pi - x ≤ 1 := by linarith
  have hlt := Real.sin_lt hy0
  have hgt := Real.sin_gt_sub_cube hy0 hy1
  have hrw : Real.sin x = -Real.sin (4 * Real.pi - x) := by
    rw [← Real.sin_neg]
    have : -(4 * Real.pi - x) = x - 2 * Real.pi - 2 * Real.pi := by ring
    rw [this, Real.sin_sub_two_pi, Real.sin_sub_two_pi]
  have hcube : (4 * Real.pi - x) ^ 3 < 0.000001 := by
    have h2 : (4 * Real.pi - x) ^ 2 < 0.0001 := by nlinarith
    nlinarith
  rw [hrw]
  constructor <;> linarith

theorem get_idle_time_sin_eq (g : Globals) (cpus : List cpu_info) (elapse cpu : Nat)
    (ci : cpu_info) (hci : cpus[cpu]? = some ci) (hp : 0 < ci.period_tsc) :
    get_idle_time_sin g cpus elapse cpu
      = some (float_to_ull (sin_idle_value g ci.period_tsc elapse)) := by
  unfold get_idle_time_sin
  rw [hci]
  simp only [Nat.ne_of_gt hp, if_false]

/-- C3 (the code at the failing input): with `sample_ms = 10` and the calibration of the
default configuration at 3 GHz (`period_tsc = 15000000000`), the idle time is 5000
microseconds at `elapse = 0`, 5015 microseconds one period later and 5031 microseconds
two periods later: `2.0 * PI` is 6.28, which is not a period of the sine. -/
theorem get_idle_time_sin_not_periodic :
    get_idle_time_sin ⟨10, 10, 100, 2, 5⟩ [⟨30000000, 30000000000, 15000000000, 0⟩]
        0 0 = some 5000 ∧
      get_idle_time_sin ⟨10, 10, 100, 2, 5⟩ [⟨30000000, 30000000000, 15000000000, 0⟩]
        (0 + 15000000000) 0 = some 5015 ∧
      get_idle_time_sin ⟨10, 10, 100, 2, 5⟩ [⟨30000000, 30000000000, 15000000000, 0⟩]
        (15000000000 + 15000000000) 0 = some 5031 := by
  have hget : ([⟨30000000, 30000000000, 15000000000, 0⟩] : List cpu_info)[0]?
      = some ⟨30000000, 30000000000, 15000000000, 0⟩ := rfl
  refine ⟨?_, ?_, ?_⟩
  · rw [get_idle_time_sin_eq _ _ _ _ _ hget (by decide), sin_idle_value_ten_ms_zero]
    congr 1
    exact float_to_ull_eq (n := 5000) (by norm_num) (by norm_num) (by norm_num)
  · rw [get_idle_time_sin_eq _ _ _ _ _ hget (by decide)]
    obtain ⟨s1, s2⟩ := sin_one_period_bounds
    obtain ⟨p1, p2⟩ := sin_pct_near 15000000000 15000000000 _ _ s1 s2 (by norm_num)
      (by norm_num)
    obtain ⟨v1, v2⟩ := sin_idle_value_ten_ms_near 15000000000 15000000000 _ _ p1 p2
      (by norm_num) (by norm_num)
    congr 1
    exact float_to_ull_eq (n := 5015) (le_trans (by norm_num) v1)
      (lt_of_le_of_lt v2 (by norm_num)) (by norm_num)
  · rw [get_idle_time_sin_eq _ _ _ _ _ hget (by decide)]
    obtain ⟨s1, s2⟩ := sin_two_periods_bounds
    obtain ⟨p1, p2⟩ := sin_pct_near 15000000000 30000000000 _ _ s1 s2 (by norm_num)
      (by norm_num)
    obtain ⟨v1, v2⟩ := sin_idle_value_ten_ms_near 15000000000 30000000000 _ _ p1 p2
      (by norm_num) (by norm_num)
    congr 1
    exact float_to_ull_eq (n := 5031) (le_trans (by norm_num) v1)
      (lt_of_le_of_lt v2 (by norm_num)) (by norm_num)

theorem sinf_mem (x : ℝ) : -1 ≤ sinf x ∧ sinf x ≤ 1 := by
  unfold sinf to_float
  exact ⟨rep_le_roundBinary 24 (by norm_num) (Real.neg_one_le_sin x)
      (isRep_neg 24 (isRep_one 24 (by norm_num))),
    roundBinary_le_of_rep 24 (by norm_num) (Real.sin_le_one x) (isRep_one 24 (by norm_num))⟩

theorem sin_pct_mem (P E : ℕ) : 0 ≤ sin_pct P E ∧ sin_pct P E ≤ 1 := by
  obtain ⟨s1, s2⟩ := sinf_mem (to_float (sin_arg P E))
  have hh : IsRep 53 (0.5 : ℝ) := isRep_half 53 (by norm_num)
  have hnh : IsRep 53 (-0.5 : ℝ) := by
    have := isRep_neg 53 hh
    simpa using this
  have a1 : (-0.5 : ℝ) ≤ to_double (0.5 * sinf (to_float (sin_arg P E))) :=
    rep_le_roundBinary 53 (by norm_num) (by linarith) hnh
  have a2 : to_double (0.5 * sinf (to_float (sin_arg P E))) ≤ (0.5 : ℝ) :=
    roundBinary_le_of_rep 53 (by norm_num) (by linarith) hh
  have b1 : (0 : ℝ) ≤ to_double (to_double (0.5 * sinf (to_float (sin_arg P E))) + 0.5) :=
    rep_le_roundBinary 53 (by norm_num) (by linarith) (isRep_zero 53)
  have b2 : to_double (to_double (0.5 * sinf (to_float (sin_arg P E))) + 0.5) ≤ (1 : ℝ) :=
    roundBinary_le_of_rep 53 (by norm_num) (by linarith) (isRep_one 53 (by norm_num))
  unfold sin_pct
  exact ⟨rep_le_roundBinary 24 (by norm_num) b1 (isRep_zero 24),
    roundBinary_le_of_rep 24 (by norm_num) b2 (isRep_one 24 (by norm_num))⟩

theorem isRep_sample_window (k : ℤ) (h0 : 0 ≤ k) (h1 : k ≤ 134218) :
    IsRep 24 ((k * 1000 : ℤ) : ℝ) := by
  rcases le_or_lt k 134217 with hk | hk
  · refine ⟨125 * k, 3, ?_, ?_⟩
    · rw [abs_of_nonneg (by omega)]
      omega
    · push_cast
      norm_num
      ring
  · have hk2 : k = 134218 := by omega
    subst hk2
    refine ⟨8388625, 4, by norm_num, by norm_num⟩

theorem float_to_ull_le {v : ℝ} {N : ℕ} (h0 : 0 ≤ v) (h1 : v ≤ (N : ℝ)) (hN : N < 2 ^ 63) :
    float_to_ull v ≤ N := by
  have hfl : ⌊v⌋₊ ≤ N := Nat.floor_le_of_le h1
  rw [float_to_ull_eq (n := ⌊v⌋₊) (Nat.floor_le h0) (Nat.lt_floor_add_one v) (by omega)]
  exact hfl

theorem sin_idle_value_mem (g : Globals) (P E : ℕ) (hs : 0 ≤ g.sample_ms)
    (hr : g.sample_ms * 1000 < 2 ^ 31)
    (hrep : IsRep 24 ((g.sample_ms * 1000 : ℤ) : ℝ)) :
    0 ≤ sin_idle_value g P E ∧ sin_idle_value g P E ≤ ((g.sample_ms * 1000 : ℤ) : ℝ) := by
  obtain ⟨p0, p1⟩ := sin_pct_mem P E
  have hA : (0 : ℝ) ≤ ((g.sample_ms * 1000 : ℤ) : ℝ) := by
    exact_mod_cast (by omega : 0 ≤ g.sample_ms * 1000)
  unfold sin_idle_value
  rw [wrapInt_of_range (x := g.sample_ms * 1000) (by omega) hr, to_float_of_isRep hrep]
  have y0 : (0 : ℝ) ≤ to_float (((g.sample_ms * 1000 : ℤ) : ℝ) * sin_pct P E) :=
    rep_le_roundBinary 24 (by norm_num) (mul_nonneg hA p0) (isRep_zero 24)
  have y1 : to_float (((g.sample_ms * 1000 : ℤ) : ℝ) * sin_pct P E)
      ≤ ((g.sample_ms * 1000 : ℤ) : ℝ) :=
    roundBinary_le_of_rep 24 (by norm_num)
      (by
        calc ((g.sample_ms * 1000 : ℤ) : ℝ) * sin_pct P E
            ≤ ((g.sample_ms * 1000 : ℤ) : ℝ) * 1 := mul_le_mul_of_nonneg_left p1 hA
          _ = ((g.sample_ms * 1000 : ℤ) : ℝ) := mul_one _) hrep
  exact ⟨rep_le_roundBinary 24 (by norm_num) (by linarith) (isRep_zero 24),
    roundBinary_le_of_rep 24 (by norm_num) (by linarith) hrep⟩

/-- C4 (amended): with `period_tsc > 0` and `0 ≤ sample_ms ≤ 134218` (more generally,
when `sample_ms * 1000` is in the range of `int` and is a `float`),
`get_idle_time_sin` returns a value between 0 and `sample_ms * 1000`. -/
theorem get_idle_time_sin_range (g : Globals) (cpus : List cpu_info) (elapse cpu : Nat)
    (ci : cpu_info) (hci : cpus[cpu]? = some ci) (hp : 0 < ci.period_tsc)
    (hs : 0 ≤ g.sample_ms)
    (hr : g.sample_ms ≤ 134218 ∨
      (g.sample_ms * 1000 < 2 ^ 31 ∧ IsRep 24 ((g.sample_ms * 1000 : ℤ) : ℝ))) :
    ∃ r : Nat, get_idle_time_sin g cpus elapse cpu = some r ∧
      (0 : Int) ≤ r ∧ (r : Int) ≤ g.sample_ms * 1000 := by
  have hboth : g.sample_ms * 1000 < 2 ^ 31 ∧ IsRep 24 ((g.sample_ms * 1000 : ℤ) : ℝ) := by
    rcases hr with h | h
    · exact ⟨by omega, isRep_sample_window g.sample_ms hs h⟩
    · exact h
  obtain ⟨v0, v1⟩ := sin_idle_value_mem g ci.period_tsc elapse hs hboth.1 hboth.2
  refine ⟨_, get_idle_time_sin_eq g cpus elapse cpu ci hci hp, by positivity, ?_⟩
  have hN : ((g.sample_ms * 1000 : ℤ) : ℝ) = (((g.sample_ms * 1000).toNat : ℕ) : ℝ) := by
    have : (((g.sample_ms * 1000).toNat : ℕ) : ℤ) = g.sample_ms * 1000 :=
      Int.toNat_of_nonneg (by omega)
    exact_mod_cast this.symm
  rw [hN] at v1
  have hle := float_to_ull_le v0 v1 (by omega)
  omega

/-- C4 (amended), with the default sample window of 10 ms and the calibration of the
default configuration at 3 GHz. -/
theorem get_idle_time_sin_range_witness :
    ∃ r : Nat, get_idle_time_sin ⟨10, 10, 100, 2, 5⟩
        [⟨30000000, 30000000000, 15000000000, 0⟩] 3750000000 0 = some r ∧
      (0 : Int) ≤ r ∧ (r : Int) ≤ 10 * 1000 :=
  get_idle_time_sin_range ⟨10, 10, 100, 2, 5⟩ [⟨30000000, 30000000000, 15000000000, 0⟩]
    3750000000 0 ⟨30000000, 30000000000, 15000000000, 0⟩ rfl (by decide) (by decide)
    (Or.inl (by decide))

theorem roundBinary_of_binade (p : ℕ) {x : ℝ} {e n : ℤ} (hx : 0 < x)
    (h1 : (2 : ℝ) ^ e ≤ x) (h2 : x < (2 : ℝ) ^ (e + 1))
    (hn : roundEven (x / (2 : ℝ) ^ (e + 1 - (p : ℤ))) = n) :
    roundBinary p x = (n : ℝ) * (2 : ℝ) ^ (e + 1 - (p : ℤ)) := by
  unfold roundBinary
  rw [if_pos hx.le, roundMag_of_binade p hx h1 h2, hn]

theorem roundBinary_neg (p : ℕ) {x : ℝ} (hx : 0 < x) :
    roundBinary p (-x) = -roundBinary p x := by
  unfold roundBinary
  rw [if_neg (by linarith), if_pos hx.le, neg_neg]

theorem to_float_window_rounds_up : to_float (134219000 : ℝ) = 134219008 := by
  have hq : (134219000 : ℝ) / (2 : ℝ) ^ ((27 : ℤ) + 1 - ((24 : ℕ) : ℤ))
      = ((8388687 : ℤ) : ℝ) + 1 / 2 := by norm_num
  have hn : roundEven ((134219000 : ℝ) / (2 : ℝ) ^ ((27 : ℤ) + 1 - ((24 : ℕ) : ℤ)))
      = 8388688 := by
    rw [hq, roundEven_half]
    have : ¬ Even (8388687 : ℤ) := by decide
    simp [this]
  unfold to_float
  rw [roundBinary_of_binade 24 (e := 27) (by norm_num) (by norm_num) (by norm_num) hn]
  norm_num

theorem to_float_near_neg_one {t : ℝ} (h1 : -1 ≤ t) (h2 : t ≤ -1 + 1 / 100000000) :
    to_float t = -1 := by
  have ht : t = -(-t) := by ring
  have hpos : 0 < -t := by linarith
  rw [ht]
  unfold to_float
  rw [roundBinary_neg 24 hpos]
  congr 1
  rcases eq_or_lt_of_le (by linarith : -t ≤ 1) with heq | hlt
  · rw [heq]
    exact roundBinary_of_isRep 24 (by norm_num) (isRep_one 24 (by norm_num))
  · have hn : roundEven (-t / (2 : ℝ) ^ ((-1 : ℤ) + 1 - ((24 : ℕ) : ℤ))) = 16777216 := by
      apply roundEven_eq_of_abs_lt
      have hpw : (2 : ℝ) ^ ((-1 : ℤ) + 1 - ((24 : ℕ) : ℤ)) = 1 / 16777216 := by norm_num
      rw [hpw, abs_lt]
      constructor
      · push_cast
        linarith
      · push_cast
        linarith
    rw [roundBinary_of_binade 24 (e := -1) hpos (by norm_num; linarith) (by norm_num; linarith) hn]
    norm_num

theorem sin_near_trough_bounds :
    -1 ≤ Real.sin (to_float (sin_arg 15000000000 416461128000)) ∧
      Real.sin (to_float (sin_arg 15000000000 416461128000)) ≤ -1 + 1 / 100000000 := by
  obtain ⟨x1, x2⟩ := to_float_sin_arg_near 15000000000 416461128000 (by norm_num)
    (by norm_num) (by norm_num)
  have hq : ((416461128000 : ℕ) : ℝ) / ((15000000000 : ℕ) : ℝ) = 27.7640752 := by norm_num
  rw [hq] at x1 x2
  generalize to_float (sin_arg 15000000000 416461128000) = x at x1 x2
  refine ⟨Real.neg_one_le_sin x, ?_⟩
  have hpl := Real.pi_gt_d6
  have hpu := Real.pi_lt_d6
  have hrw : Real.sin x = -Real.cos (x - 55.5 * Real.pi) := by
    have e1 : x = (x - 55.5 * Real.pi + Real.pi + Real.pi / 2) + (27 : ℕ) * (2 * Real.pi) := by
      push_cast
      ring
    have e2 : Real.sin x
        = Real.sin (x - (27 : ℕ) * (2 * Real.pi)) := (Real.sin_sub_nat_mul_two_pi x 27).symm
    have e3 : x - (27 : ℕ) * (2 * Real.pi) = x - 55.5 * Real.pi + Real.pi + Real.pi / 2 := by
      push_cast
      ring
    rw [e2, e3, Real.sin_add_pi_div_two, Real.cos_add_pi]
  have hcos := Real.one_sub_sq_div_two_le_cos (x := x - 55.5 * Real.pi)
  have hsq : (x - 55.5 * Real.pi) ^ 2 ≤ 1 / 100000000 := by nlinarith
  rw [hrw]
  linarith

theorem sin_pct_trough : sin_pct 15000000000 416461128000 = 0 := by
  obtain ⟨s1, s2⟩ := sin_near_trough_bounds
  have hh : IsRep 53 (-0.5 : ℝ) := by
    have := isRep_neg 53 (isRep_half 53 (by norm_num))
    simpa using this
  have e1 : (0.5 : ℝ) * -1 = -0.5 := by norm_num
  have e2 : (-0.5 : ℝ) + 0.5 = 0 := by norm_num
  unfold sin_pct sinf
  rw [to_float_near_neg_one s1 s2, e1, to_double_of_isRep hh, e2, to_double_zero,
    to_float_zero]

/-- C4 (as stated, refuted): at `sample_ms = 134219` the product 134219000 is not a
`float`; its conversion rounds up to 134219008, and where the wave is at its trough
(`pct = 0`) the function returns 134219008, above `sample_ms * 1000`. -/
theorem get_idle_time_sin_above_window :
    (0 : Int) ≤ 134219 ∧ (134219 : Int) * 1000 < 2 ^ 31 ∧
      get_idle_time_sin ⟨134219, 10, 100, 2, 5⟩
        [⟨402657000000, 30000000000, 15000000000, 0⟩] 416461128000 0 = some 134219008 ∧
      ¬ ((134219008 : Int) ≤ 134219 * 1000) := by
  have hget : ([⟨402657000000, 30000000000, 15000000000, 0⟩] : List cpu_info)[0]?
      = some ⟨402657000000, 30000000000, 15000000000, 0⟩ := rfl
  have hw : wrapInt (134219 * 1000) = 134219000 := by decide
  have hrep : IsRep 24 (134219008 : ℝ) := ⟨8388688, 4, by norm_num, by norm_num⟩
  have hv : sin_idle_value ⟨134219, 10, 100, 2, 5⟩ 15000000000 416461128000
      = 134219008 := by
    unfold sin_idle_value
    simp only [hw]
    push_cast
    rw [to_float_window_rounds_up, sin_pct_trough, mul_zero, to_float_zero, sub_zero,
      to_float_of_isRep hrep]
  refine ⟨by decide, by decide, ?_, by decide⟩
  rw [get_idle_time_sin_eq _ _ _ _ _ hget (by decide), hv]
  congr 1
  exact float_to_ull_eq (n := 134219008) (by norm_num) (by norm_num) (by norm_num)

/-- With `sample_ms = 2147484` the product `sample_ms * 1000` is outside the range of
`int`: the `int` value is -2147483296, its conversion to `float` is -2147483264, the
expression is -1073741632 at `elapse = 0` and the conversion to `unsigned long long`
gives `2 ^ 64 - 1073741632`. -/
theorem get_idle_time_sin_overflow :
    wrapInt (2147484 * 1000) = -2147483296 ∧
      get_idle_time_sin ⟨2147484, 10, 100, 2, 5⟩ [⟨0, 0, 1, 0⟩] 0 0
        = some (2 ^ 64 - 1073741632) := by
  have hget : ([⟨0, 0, 1, 0⟩] : List cpu_info)[0]? = some ⟨0, 0, 1, 0⟩ := rfl
  have hw : wrapInt (2147484 * 1000) = -2147483296 := by decide
  have hA : to_float (-2147483296 : ℝ) = -2147483264 := by
    have hn : roundEven ((2147483296 : ℝ) / (2 : ℝ) ^ ((30 : ℤ) + 1 - ((24 : ℕ) : ℤ)))
        = 16777213 := by
      apply roundEven_eq_of_abs_lt
      rw [abs_lt]
      constructor <;> norm_num
    have hneg : (-2147483296 : ℝ) = -(2147483296 : ℝ) := by norm_num
    unfold to_float
    rw [hneg, roundBinary_neg 24 (by norm_num),
      roundBinary_of_binade 24 (e := 30) (by norm_num) (by norm_num) (by norm_num) hn]
    norm_num
  have hrep : IsRep 24 (-1073741632 : ℝ) := ⟨-16777213, 6, by norm_num, by norm_num⟩
  have hv : sin_idle_value ⟨2147484, 10, 100, 2, 5⟩ 1 0 = -1073741632 := by
    unfold sin_idle_value
    simp only [hw]
    push_cast
    rw [hA, sin_pct_zero]
    have e1 : (-2147483264 : ℝ) * 0.5 = -1073741632 := by norm_num
    have e2 : (-2147483264 : ℝ) - -1073741632 = -1073741632 := by norm_num
    rw [e1, to_float_of_isRep hrep, e2, to_float_of_isRep hrep]
  refine ⟨hw, ?_⟩
  rw [get_idle_time_sin_eq _ _ _ _ _ hget (by decide), hv]
  congr 1
  have hc : ⌈(-1073741632 : ℝ)⌉ = -1073741632 := by
    have : (-1073741632 : ℝ) = ((-1073741632 : ℤ) : ℝ) := by norm_num
    rw [this, Int.ceil_intCast]
  unfold float_to_ull truncate
  rw [if_neg (by norm_num), if_pos (by norm_num), if_neg (by norm_num), hc]
  decide

/-- With `period_tsc = 0` the argument of `sinf` is not a number and the conversion gives
`2 ^ 63`. -/
theorem get_idle_time_sin_zero_period :
    get_idle_time_sin ⟨10, 10, 100, 2, 5⟩ [⟨0, 0, 0, 0⟩] 7 0 = some (2 ^ 63) := by
  rfl

end X86Cpuload
